import Mathlib

/-!
Verification of the sample_parser repository: a shallow embedding of its three
pipeline stages (lexer.py, parser.py, transformer.py) together with theorems
settling the frozen claims about the natural-language specification.

Conventions of the embedding:
* Python's lazy token stream is a `List Token`; the parser's one-token
  lookahead is the head of the list.
* Python exceptions become `Except` errors.  `AttributeError` (attribute
  access on `None`, e.g. `self._lookahead.type` when the stream is
  exhausted) is `PErr.attrNone`; `SyntaxError` is `PErr.syntaxError`
  carrying the expected token kind, exactly as `Parser._consume` raises it.
* Recursion that Python realises with `while` loops over the token stream
  is fuel-indexed structural recursion; fuel exhaustion is a dedicated
  error that never occurs at the fuel budgets used below.
-/

namespace SampleParser

/-- Token kinds, mirroring `lexer.TokenType` (the members used by the
pipeline; `EQUALITY` is kept because `Parser.equality_expression` refers to
it even though the `==` pattern of the `COMPARISON_OPERATOR` rule shadows
the later `EQUALITY` rule). -/
inductive TokType where
  | STRING
  | NUMBER
  | LOGICAL_OR
  | LOGICAL_AND
  | OPENING_PARENTHESIS
  | CLOSING_PARENTHESIS
  | OPENING_SQUARE_BRACKET
  | CLOSING_SQUARE_BRACKET
  | OPENING_CURLY_BRACKET
  | CLOSING_CURLY_BRACKET
  | COMPARISON_OPERATOR
  | ADDITIVE_OPERATOR
  | MULTIPLICATIVE_OPERATOR
  | COLON
  | KEYWORD
  | COMMA
  | DOT
  | IDENTIFIER
  | EQUALS
  | EQUALITY
  | NULL
  | FAT_ARROW
  | JOINS
  | OVER
  | MEMBERSHIP_OPERATOR
  deriving DecidableEq, Repr

/-- A lexed token: `lexer.Token`, a kind together with the exact matched
substring. -/
structure Token where
  type : TokType
  value : String
  deriving DecidableEq, Repr

/-- Python's `\w` character class restricted to ASCII, which is all the
grammar's inputs use: letters, digits and underscore. -/
def isWordChar (c : Char) : Bool :=
  c.isAlphanum || c = '_'

/-- Match a literal pattern (a regex with no metacharacters) at the front of
the input, returning the remainder on success. -/
def matchLit : List Char → List Char → Option (List Char)
  | [], cs => some cs
  | _ :: _, [] => none
  | l :: ls, c :: cs => if c = l then matchLit ls cs else none

/-- The `\b` word-boundary test on the right edge of a match: the next
character is absent or not a word character. -/
def wordBreakAt : List Char → Bool
  | [] => true
  | c :: _ => !isWordChar c

/-- One rule outcome: the matched text and the rest of the input. -/
abbrev MatchRes := Option (List Char × List Char)

/-- First-match-wins combination of two rule outcomes, modelling the ordered
alternation of `lexer.token_spec`. -/
def orElseO (a b : MatchRes) : MatchRes :=
  match a with
  | some x => some x
  | none => b

/-- A literal rule such as `=>` or `:` (no word boundaries). -/
def litRule (lit : List Char) (cs : List Char) : MatchRes :=
  (matchLit lit cs).map (fun r => (lit, r))

/-- An ordered alternation of literal rules, e.g. the comparison rule
`>|>=|<|<=|==|!=` (first alternative that matches wins, exactly as in the
Python regex engine). -/
def litsRule : List (List Char) → List Char → MatchRes
  | [], _ => none
  | l :: ls, cs => orElseO (litRule l cs) (litsRule ls cs)

/-- A single-word keyword rule `\bkw\b`.  The left boundary holds when the
previous character is not a word character (`prevWord = false`); the
pattern text is checked first so that a failed literal match decides the
rule regardless of the boundary flags. -/
def kwRule (prevWord : Bool) (kw : List Char) (cs : List Char) : MatchRes :=
  match matchLit kw cs with
  | some r => if prevWord then none else if wordBreakAt r then some (kw, r) else none
  | none => none

/-- The second half of a two-word keyword pattern: the separating space, the
continuation word, and (when `needBreak` is set) the trailing `\b`.
`\bright join` in `token_spec` is the one two-word pattern without a
trailing boundary. -/
def contPart (cont : List Char) (needBreak : Bool) (cs : List Char) : Option (List Char) :=
  match matchLit (' ' :: cont) cs with
  | some r => if needBreak && !wordBreakAt r then none else some r
  | none => none

/-- A two-word keyword rule such as `\bgroup by\b` or `\bright join`,
factored as first word, space, continuation. -/
def kw2Rule (prevWord : Bool) (w1 cont : List Char) (needBreak : Bool)
    (cs : List Char) : MatchRes :=
  match matchLit w1 cs with
  | some r =>
    if prevWord then none
    else (contPart cont needBreak r).map (fun r2 => (w1 ++ ' ' :: cont, r2))
  | none => none

/-- The `\d+` rule: a maximal nonempty run of digits. -/
def numRule (cs : List Char) : MatchRes :=
  let ds := cs.takeWhile Char.isDigit
  if ds.isEmpty then none else some (ds, cs.drop ds.length)

/-- The `\w+` rule: a maximal nonempty run of word characters. -/
def wordRule (cs : List Char) : MatchRes :=
  let ds := cs.takeWhile isWordChar
  if ds.isEmpty then none else some (ds, cs.drop ds.length)

/-- Quote characters accepted by the string rule. -/
def isQuote (c : Char) : Bool :=
  c = '\'' || c = '"'

/-- The string rule `['"]\w+['"]`: a quote, a nonempty run of word
characters, and a closing quote (the two quotes need not agree, exactly as
in the pattern). -/
def strRule (cs : List Char) : MatchRes :=
  match cs with
  | [] => none
  | q :: rest =>
    if isQuote q then
      let ws := rest.takeWhile isWordChar
      if ws.isEmpty then none
      else
        match rest.drop ws.length with
        | q2 :: rest2 =>
          if isQuote q2 then some (q :: ws ++ [q2], rest2) else none
        | [] => none
    else none

/-- Tag a rule outcome with its token kind. -/
def tag (ty : TokType) (m : MatchRes) : Option (TokType × List Char × List Char) :=
  m.map (fun p => (ty, p.1, p.2))

/-- First-match-wins combination of tagged outcomes. -/
def orElseT (a b : Option (TokType × List Char × List Char)) :
    Option (TokType × List Char × List Char) :=
  match a with
  | some x => some x
  | none => b

/-- The `JOINS` rule
`\bleft join\b|\bright join|\bjoin\b|\bunion all\b|\bunion\b` (note the
missing trailing boundary on `right join`, faithfully reproduced). -/
def joinsRule (prevWord : Bool) (cs : List Char) : MatchRes :=
  orElseO (kw2Rule prevWord ['l', 'e', 'f', 't'] ['j', 'o', 'i', 'n'] true cs) <|
  orElseO (kw2Rule prevWord ['r', 'i', 'g', 'h', 't'] ['j', 'o', 'i', 'n'] false cs) <|
  orElseO (kwRule prevWord ['j', 'o', 'i', 'n'] cs) <|
  orElseO (kw2Rule prevWord ['u', 'n', 'i', 'o', 'n'] ['a', 'l', 'l'] true cs) <|
  kwRule prevWord ['u', 'n', 'i', 'o', 'n'] cs

/-- The `KEYWORD` rule: the ordered alternation of the fourteen reserved
keywords of `token_spec` (two of them two-word). -/
def keywordRule (prevWord : Bool) (cs : List Char) : MatchRes :=
  orElseO (kwRule prevWord ['l', 'e', 't'] cs) <|
  orElseO (kwRule prevWord ['d', 'i', 's', 't', 'i', 'n', 'c', 't'] cs) <|
  orElseO (kwRule prevWord ['w', 'h', 'e', 'r', 'e'] cs) <|
  orElseO (kw2Rule prevWord ['g', 'r', 'o', 'u', 'p'] ['b', 'y'] true cs) <|
  orElseO (kwRule prevWord ['h', 'a', 'v', 'i', 'n', 'g'] cs) <|
  orElseO (kwRule prevWord ['a', 's'] cs) <|
  orElseO (kwRule prevWord ['p', 'r', 'o', 'j', 'e', 'c', 't'] cs) <|
  orElseO (kwRule prevWord ['c', 'o', 'u', 'n', 't'] cs) <|
  orElseO (kwRule prevWord ['f', 'i', 'r', 's', 't'] cs) <|
  orElseO (kwRule prevWord ['m', 'a', 't', 'c', 'h'] cs) <|
  orElseO (kwRule prevWord ['c', 'a', 's', 'e'] cs) <|
  orElseO (kwRule prevWord ['o', 'n'] cs) <|
  orElseO (kwRule prevWord ['s', 'u', 'm'] cs) <|
  kw2Rule prevWord ['p', 'a', 'r', 't', 'i', 't', 'i', 'o', 'n'] ['b', 'y'] true cs

/-- The full ordered rule table `lexer.token_spec`, tried at one input
position: the first rule whose pattern matches there wins.  `prevWord`
records whether the preceding character was a word character (for the `\b`
left boundaries); the scan position itself is the head of `cs`. -/
def tryRules (prevWord : Bool) (cs : List Char) : Option (TokType × List Char × List Char) :=
  orElseT (tag .MEMBERSHIP_OPERATOR (kwRule prevWord ['i', 'n'] cs)) <|
  orElseT (tag .FAT_ARROW (litRule ['=', '>'] cs)) <|
  orElseT (tag .COLON (litRule [':'] cs)) <|
  orElseT (tag .LOGICAL_OR (kwRule prevWord ['o', 'r'] cs)) <|
  orElseT (tag .LOGICAL_AND (kwRule prevWord ['a', 'n', 'd'] cs)) <|
  orElseT (tag .COMPARISON_OPERATOR
      (litsRule [['>'], ['>', '='], ['<'], ['<', '='], ['=', '='], ['!', '=']] cs)) <|
  orElseT (tag .MULTIPLICATIVE_OPERATOR (litsRule [['*'], ['/']] cs)) <|
  orElseT (tag .ADDITIVE_OPERATOR (litsRule [['+'], ['-']] cs)) <|
  orElseT (tag .EQUALITY (litRule ['=', '='] cs)) <|
  orElseT (tag .EQUALS (litRule ['='] cs)) <|
  orElseT (tag .DOT (litRule ['.'] cs)) <|
  orElseT (tag .COMMA (litRule [','] cs)) <|
  orElseT (tag .OPENING_SQUARE_BRACKET (litRule ['['] cs)) <|
  orElseT (tag .CLOSING_SQUARE_BRACKET (litRule [']'] cs)) <|
  orElseT (tag .OPENING_PARENTHESIS (litRule ['('] cs)) <|
  orElseT (tag .CLOSING_PARENTHESIS (litRule [')'] cs)) <|
  orElseT (tag .OPENING_CURLY_BRACKET (litRule ['\x7b'] cs)) <|
  orElseT (tag .CLOSING_CURLY_BRACKET (litRule ['\x7d'] cs)) <|
  orElseT (tag .OVER (kwRule prevWord ['o', 'v', 'e', 'r'] cs)) <|
  orElseT (tag .JOINS (joinsRule prevWord cs)) <|
  orElseT (tag .KEYWORD (keywordRule prevWord cs)) <|
  orElseT (tag .NULL (kwRule prevWord ['n', 'u', 'l', 'l'] cs)) <|
  orElseT (tag .NUMBER (numRule cs)) <|
  orElseT (tag .STRING (strRule cs)) <|
  tag .IDENTIFIER (wordRule cs)

/-- Whether the last character of a matched text is a word character; this
is the `prevWord` flag for the next scan position. -/
def prevOf (text : List Char) : Bool :=
  match text.getLast? with
  | some c => isWordChar c
  | none => false

/-- The scanning loop of `Lexer._lex` (`finditer` over the combined
pattern): at each position take the first rule that matches, otherwise
silently skip one character.  Fuel-indexed; every step consumes at least
one character, so fuel equal to the input length suffices. -/
def lexCF : Nat → Bool → List Char → List Token
  | 0, _, _ => []
  | _ + 1, _, [] => []
  | fuel + 1, prevWord, c :: rest =>
    match tryRules prevWord (c :: rest) with
    | some (ty, text, r) => ⟨ty, ⟨text⟩⟩ :: lexCF fuel (prevOf text) r
    | none => lexCF fuel (isWordChar c) rest

/-- `Lexer.lex`: tokenize a whole string. -/
def lexString (s : String) : List Token :=
  lexCF s.data.length false s.data

end SampleParser

namespace SampleParser

/-- AST nodes.  The Python parser builds loosely-typed dicts distinguished
by a `type` string; each constructor below carries exactly the fields of
the corresponding dict, in the dict's insertion order (the order matters
for `get_source_table`'s traversal). -/
inductive AST where
  | statementList (body : List AST)
  | variableAssignment (name : String) (value : AST)
  | blockStatement (modifier : Option String) (body : List AST)
  | filterStatementList (body : List AST)
  | filterStmt (value : String) (body : AST)
  | columnAssignmentList (body : List AST)
  | columnAssignmentStatement (name : AST) (value : AST)
  | projectExpression (body : AST)
  | parenthesizedExpression (body : AST)
  | matchExpression (body : List AST)
  | caseExpression (conditions : AST) (value : AST)
  | functionalExpression (name : String) (args : List AST)
  | partitionByExpression (body : List AST)
  | joinExpression (join_type : String) (left : AST) (right : AST) (condition : AST)
  | unionExpression (left : AST) (right : AST)
  | identifierExpression (value : String) (source_table : Option String)
  | unaryExpression (operator : String) (argument : AST)
  | binaryExpression (operator : String) (left : AST) (right : AST)
  | membershipExpression (operator : String) (left : AST) (right : AST)
  | arrayExpression (body : List AST)
  | stringLiteral (value : String)
  | numericLiteral (value : Int)
  | nullLiteral
  deriving Repr, Inhabited

/-- Parser failures.  `Parser._consume` checks the token kind before it
checks for stream exhaustion, so running out of tokens surfaces as
Python's `AttributeError` on `None` (`attrNone`), never as the dead
`EOFError` branch; the same `AttributeError` arises at every unguarded
`self._lookahead` access in the parser.  `fuelOut` is an artifact of the
fuel-indexed embedding and never occurs at the budgets used here. -/
inductive PErr where
  | syntaxError (expected : TokType)
  | attrNone
  | fuelOut
  deriving DecidableEq, Repr

/-- Python's substring operator `needle in hay` on strings, used by
`union_join_expression` to test `"join" in join_type`. -/
def hasSub (needle : List Char) : List Char → Bool
  | [] => needle.isEmpty
  | c :: rest => needle.isPrefixOf (c :: rest) || hasSub needle rest

/-- `Parser._consume`: kind mismatch raises `SyntaxError` (carrying the
expected kind); an exhausted stream hits `self._lookahead.type` on `None`
first, i.e. `AttributeError`, because the `None` check comes second in the
source. -/
def consume (expected : TokType) (ts : List Token) : Except PErr (Token × List Token) :=
  match ts with
  | [] => .error .attrNone
  | t :: rest => if t.type = expected then .ok (t, rest) else .error (.syntaxError expected)

/-- `re.search(r"[^'\"]+", value).group()` in `Parser.string_literal`:
the first maximal run of non-quote characters of the token text. -/
def stripQuotes (v : String) : String :=
  ⟨(v.data.dropWhile isQuote).takeWhile (fun c => !isQuote c)⟩

/-- A parser computation: feed a token stream with the lookahead at its
head, produce a result and the remaining stream. -/
abbrev P (α : Type) := List Token → Except PErr (α × List Token)

/-- The mutually recursive parsing methods of `parser.Parser`, collected
into one record so that the recursion can be tied by fuel-indexed
iteration (`pAt`), which the kernel can evaluate. -/
structure PFns where
  statementList : P (List AST)
  statement : P AST
  variableAssignment : P AST
  filterStatementList : P AST
  filterLoop : P (List AST)
  filterStatement : P AST
  blockStatement : P AST
  blockLoop : P (List AST)
  columnAssignmentList : P AST
  columnAssignLoop : P (List AST)
  columnAssignmentStatement : P AST
  projectExpression : P AST
  parenthesizedExpression : P AST
  matchExpression : P AST
  matchLoop : P (List AST)
  caseExpression : P AST
  functionalExpression : P AST
  argsLoop : P (List AST)
  literals : P AST
  expression : P AST
  joinExpr : P AST
  logicalOr : P AST
  logicalAnd : P AST
  equalityExpression : P AST
  relationalExpression : P AST
  additiveExpression : P AST
  multiplicativeExpression : P AST
  membershipExpression : P AST
  unaryExpression : P AST
  unionJoinExpression : P AST → P AST
  ujLoop : P AST → AST → P AST
  binaryExpression : P AST → TokType → (String → AST → AST → AST) → P AST
  binLoop : P AST → TokType → (String → AST → AST → AST) → AST → P AST
  primaryExpression : P AST
  partitionByExpression : P AST
  partitionLoop : P (List AST)
  identifierExpression : P AST
  idLoop : List String → P (List String)
  arrayExpression : P AST
  arrayLoop : P (List AST)

/-- `Parser.statement_list`: consume statements until the stream is
exhausted (`while self._lookahead`). -/
def statementListF (rec : PFns) : P (List AST) := fun ts =>
  match ts with
  | [] => .ok ([], [])
  | _ :: _ => do
    let (s, ts1) ← rec.statement ts
    let (rest, ts2) ← rec.statementList ts1
    .ok (s :: rest, ts2)

/-- `Parser.statement`: dispatch on the lookahead (an exhausted stream hits
`self._lookahead.value` on `None`). -/
def statementF (rec : PFns) : P AST := fun ts =>
  match ts with
  | [] => .error .attrNone
  | t :: _ =>
    if t.value = "let" then rec.variableAssignment ts
    else if t.type = .OPENING_CURLY_BRACKET then rec.blockStatement ts
    else if ["where", "having", "group by"].contains t.value then rec.filterStatementList ts
    else if t.type = .IDENTIFIER then rec.columnAssignmentList ts
    else rec.expression ts

/-- `Parser.variable_assignment_statement`. -/
def variableAssignmentF (rec : PFns) : P AST := fun ts => do
  let (_, ts1) ← consume .KEYWORD ts
  let (nameTok, ts2) ← consume .IDENTIFIER ts1
  let (_, ts3) ← consume .EQUALS ts2
  match ts3 with
  | [] => .error .attrNone
  | t :: _ =>
    if t.type = .OPENING_CURLY_BRACKET then do
      let (v, ts4) ← rec.statement ts3
      .ok (.variableAssignment nameTok.value v, ts4)
    else do
      let (v, ts4) ← rec.expression ts3
      .ok (.variableAssignment nameTok.value v, ts4)

/-- `Parser.filter_statement_list`. -/
def filterStatementListF (rec : PFns) : P AST := fun ts => do
  let (f1, ts1) ← rec.filterStatement ts
  let (rest, ts2) ← rec.filterLoop ts1
  .ok (.filterStatementList (f1 :: rest), ts2)

/-- The `while self._lookahead.value in ("group by", "having", "where")`
loop of `filter_statement_list` (unguarded lookahead access). -/
def filterLoopF (rec : PFns) : P (List AST) := fun ts =>
  match ts with
  | [] => .error .attrNone
  | t :: _ =>
    if ["group by", "having", "where"].contains t.value then do
      let (x, ts1) ← rec.filterStatement ts
      let (rest, ts2) ← rec.filterLoop ts1
      .ok (x :: rest, ts2)
    else .ok ([], ts)

/-- `Parser.filter_statement`: `group by` takes a nested statement, the
other filters take an expression. -/
def filterStatementF (rec : PFns) : P AST := fun ts => do
  let (kt, ts1) ← consume .KEYWORD ts
  if kt.value = "group by" then do
    let (b, ts2) ← rec.statement ts1
    .ok (.filterStmt kt.value b, ts2)
  else do
    let (b, ts2) ← rec.expression ts1
    .ok (.filterStmt kt.value b, ts2)

/-- `Parser.block_statement`: after `{`, any KEYWORD-kind lookahead is
consumed as the block's modifier. -/
def blockStatementF (rec : PFns) : P AST := fun ts => do
  let (_, ts1) ← consume .OPENING_CURLY_BRACKET ts
  match ts1 with
  | [] => .error .attrNone
  | t :: _ =>
    if t.type = .KEYWORD then do
      let (kt, ts2) ← consume .KEYWORD ts1
      let (stmts, ts3) ← rec.blockLoop ts2
      let (_, ts4) ← consume .CLOSING_CURLY_BRACKET ts3
      .ok (.blockStatement (some kt.value) stmts, ts4)
    else do
      let (stmts, ts3) ← rec.blockLoop ts1
      let (_, ts4) ← consume .CLOSING_CURLY_BRACKET ts3
      .ok (.blockStatement none stmts, ts4)

/-- The `while self._lookahead.type != CLOSING_CURLY_BRACKET` loop of
`block_statement` (unguarded lookahead access). -/
def blockLoopF (rec : PFns) : P (List AST) := fun ts =>
  match ts with
  | [] => .error .attrNone
  | t :: _ =>
    if t.type = .CLOSING_CURLY_BRACKET then .ok ([], ts)
    else do
      let (s, ts1) ← rec.statement ts
      let (rest, ts2) ← rec.blockLoop ts1
      .ok (s :: rest, ts2)

/-- `Parser.column_assignment_list`. -/
def columnAssignmentListF (rec : PFns) : P AST := fun ts => do
  let (a1, ts1) ← rec.columnAssignmentStatement ts
  let (rest, ts2) ← rec.columnAssignLoop ts1
  .ok (.columnAssignmentList (a1 :: rest), ts2)

/-- The `while self._lookahead.type == COMMA` loop of
`column_assignment_list` (unguarded lookahead access). -/
def columnAssignLoopF (rec : PFns) : P (List AST) := fun ts =>
  match ts with
  | [] => .error .attrNone
  | t :: _ =>
    if t.type = .COMMA then do
      let (_, ts1) ← consume .COMMA ts
      let (a, ts2) ← rec.columnAssignmentStatement ts1
      let (rest, ts3) ← rec.columnAssignLoop ts2
      .ok (a :: rest, ts3)
    else .ok ([], ts)

/-- `Parser.column_assignment_statement`: an expression, optionally
followed by `:` and a value; without `:` the bare expression itself is
returned (no ColumnAssignmentStatement wrapper).  The trailing lookahead
test `self._lookahead.type == COLON` is unguarded. -/
def columnAssignmentStatementF (rec : PFns) : P AST := fun ts => do
  let (name, ts1) ← rec.expression ts
  match ts1 with
  | [] => .error .attrNone
  | t :: _ =>
    if t.type = .COLON then do
      let (_, ts2) ← consume .COLON ts1
      let (v, ts3) ← rec.expression ts2
      .ok (.columnAssignmentStatement name v, ts3)
    else .ok (name, ts1)

/-- `Parser.project_expression`: `project` IDENT `as` statement. -/
def projectExpressionF (rec : PFns) : P AST := fun ts => do
  let (_, ts1) ← consume .KEYWORD ts
  let (_, ts2) ← consume .IDENTIFIER ts1
  let (_, ts3) ← consume .KEYWORD ts2
  let (body, ts4) ← rec.statement ts3
  .ok (.projectExpression body, ts4)

/-- `Parser.parenthesized_expression`. -/
def parenthesizedExpressionF (rec : PFns) : P AST := fun ts => do
  let (_, ts1) ← consume .OPENING_PARENTHESIS ts
  let (body, ts2) ← rec.expression ts1
  let (_, ts3) ← consume .CLOSING_PARENTHESIS ts2
  .ok (.parenthesizedExpression body, ts3)

/-- `Parser.match_expression`. -/
def matchExpressionF (rec : PFns) : P AST := fun ts => do
  let (_, ts1) ← consume .KEYWORD ts
  let (_, ts2) ← consume .OPENING_CURLY_BRACKET ts1
  let (cases, ts3) ← rec.matchLoop ts2
  let (_, ts4) ← consume .CLOSING_CURLY_BRACKET ts3
  .ok (.matchExpression cases, ts4)

/-- The case loop of `match_expression` (unguarded lookahead access). -/
def matchLoopF (rec : PFns) : P (List AST) := fun ts =>
  match ts with
  | [] => .error .attrNone
  | t :: _ =>
    if t.type = .CLOSING_CURLY_BRACKET then .ok ([], ts)
    else do
      let (c, ts1) ← rec.caseExpression ts
      let (rest, ts2) ← rec.matchLoop ts1
      .ok (c :: rest, ts2)

/-- `Parser.case_expression`: `case` condition `=>` value. -/
def caseExpressionF (rec : PFns) : P AST := fun ts => do
  let (_, ts1) ← consume .KEYWORD ts
  let (cond, ts2) ← rec.expression ts1
  let (_, ts3) ← consume .FAT_ARROW ts2
  let (v, ts4) ← rec.expression ts3
  .ok (.caseExpression cond v, ts4)

/-- `Parser.functional_expression`: KEYWORD `(` expr (`,` expr)* `)`. -/
def functionalExpressionF (rec : PFns) : P AST := fun ts => do
  let (nameTok, ts1) ← consume .KEYWORD ts
  let (_, ts2) ← consume .OPENING_PARENTHESIS ts1
  let (a1, ts3) ← rec.expression ts2
  let (args, ts4) ← rec.argsLoop ts3
  let (_, ts5) ← consume .CLOSING_PARENTHESIS ts4
  .ok (.functionalExpression nameTok.value (a1 :: args), ts5)

/-- The argument loop of `functional_expression` (unguarded lookahead
access on COMMA test). -/
def argsLoopF (rec : PFns) : P (List AST) := fun ts =>
  match ts with
  | [] => .error .attrNone
  | t :: _ =>
    if t.type = .COMMA then do
      let (_, ts1) ← consume .COMMA ts
      let (e, ts2) ← rec.expression ts1
      let (rest, ts3) ← rec.argsLoop ts2
      .ok (e :: rest, ts3)
    else .ok ([], ts)

/-- `Parser.string_literal`. -/
def stringLiteralP : P AST := fun ts => do
  let (t, ts1) ← consume .STRING ts
  .ok (.stringLiteral (stripQuotes t.value), ts1)

/-- `Parser.numeric_literal` (`int(value)` on a digit-run token). -/
def numericLiteralP : P AST := fun ts => do
  let (t, ts1) ← consume .NUMBER ts
  .ok (.numericLiteral ((t.value.toNat?).getD 0 : Int), ts1)

/-- `Parser.null_literal`. -/
def nullLiteralP : P AST := fun ts => do
  let (_, ts1) ← consume .NULL ts
  .ok (.nullLiteral, ts1)

/-- `Parser.literals` (unguarded lookahead access). -/
def literalsF (_ : PFns) : P AST := fun ts =>
  match ts with
  | [] => .error .attrNone
  | t :: _ =>
    if t.type = .STRING then stringLiteralP ts
    else if t.type = .NUMBER then numericLiteralP ts
    else nullLiteralP ts

/-- `Parser.expression` / `Parser.over_expression`: the top of the
precedence ladder, a binary fold over `join_expr` operands on OVER. -/
def expressionF (rec : PFns) : P AST := fun ts =>
  rec.binaryExpression rec.joinExpr .OVER AST.binaryExpression ts

/-- `Parser.join_expr`. -/
def joinExprF (rec : PFns) : P AST := fun ts =>
  rec.unionJoinExpression rec.logicalOr ts

/-- `Parser.logical_or`. -/
def logicalOrF (rec : PFns) : P AST := fun ts =>
  rec.binaryExpression rec.logicalAnd .LOGICAL_OR AST.binaryExpression ts

/-- `Parser.logical_and`. -/
def logicalAndF (rec : PFns) : P AST := fun ts =>
  rec.binaryExpression rec.equalityExpression .LOGICAL_AND AST.binaryExpression ts

/-- `Parser.equality_expression` (dead level: the lexer never emits an
EQUALITY token because the comparison rule matches `==` first). -/
def equalityExpressionF (rec : PFns) : P AST := fun ts =>
  rec.binaryExpression rec.relationalExpression .EQUALITY AST.binaryExpression ts

/-- `Parser.relational_expression`. -/
def relationalExpressionF (rec : PFns) : P AST := fun ts =>
  rec.binaryExpression rec.additiveExpression .COMPARISON_OPERATOR AST.binaryExpression ts

/-- `Parser.additive_expression`. -/
def additiveExpressionF (rec : PFns) : P AST := fun ts =>
  rec.binaryExpression rec.multiplicativeExpression .ADDITIVE_OPERATOR AST.binaryExpression ts

/-- `Parser.multiplicative_expression`. -/
def multiplicativeExpressionF (rec : PFns) : P AST := fun ts =>
  rec.binaryExpression rec.membershipExpression .MULTIPLICATIVE_OPERATOR AST.binaryExpression ts

/-- `Parser.membership_expression` (builds MembershipExpression nodes). -/
def membershipExpressionF (rec : PFns) : P AST := fun ts =>
  rec.binaryExpression rec.unaryExpression .MEMBERSHIP_OPERATOR AST.membershipExpression ts

/-- `Parser.unary_expression` (unguarded lookahead access). -/
def unaryExpressionF (rec : PFns) : P AST := fun ts =>
  match ts with
  | [] => .error .attrNone
  | t :: _ =>
    if t.type = .ADDITIVE_OPERATOR then do
      let (op, ts1) ← consume .ADDITIVE_OPERATOR ts
      let (arg, ts2) ← rec.primaryExpression ts1
      .ok (.unaryExpression op.value arg, ts2)
    else rec.primaryExpression ts

/-- `Parser.union_join_expression` entry: one operand, then the fold
loop. -/
def unionJoinExpressionF (rec : PFns) (func : P AST) : P AST := fun ts => do
  let (l, ts1) ← func ts
  rec.ujLoop func l ts1

/-- The `while self._lookahead and self._lookahead.type == JOINS` fold of
`union_join_expression`: a JoinExpression (consuming `on` and a condition)
when the operator text contains "join", a UnionExpression otherwise. -/
def ujLoopF (rec : PFns) (func : P AST) (left : AST) : P AST := fun ts =>
  match ts with
  | [] => .ok (left, ts)
  | t :: _ =>
    if t.type = .JOINS then do
      let (jt, ts1) ← consume .JOINS ts
      let (r, ts2) ← func ts1
      if hasSub ['j', 'o', 'i', 'n'] jt.value.data then do
        let (_, ts3) ← consume .KEYWORD ts2
        let (cond, ts4) ← func ts3
        rec.ujLoop func (.joinExpression jt.value left r cond) ts4
      else
        rec.ujLoop func (.unionExpression left r) ts2
    else .ok (left, ts)

/-- `Parser.binary_expression` entry: one operand at the tighter level,
then the fold loop. -/
def binaryExpressionF (rec : PFns) (func : P AST) (tt : TokType)
    (mk : String → AST → AST → AST) : P AST := fun ts => do
  let (l, ts1) ← func ts
  rec.binLoop func tt mk l ts1

/-- The guarded `while self._lookahead and self._lookahead.type ==
token_type` fold of `binary_expression`. -/
def binLoopF (rec : PFns) (func : P AST) (tt : TokType)
    (mk : String → AST → AST → AST) (left : AST) : P AST := fun ts =>
  match ts with
  | [] => .ok (left, ts)
  | t :: _ =>
    if t.type = tt then do
      let (op, ts1) ← consume tt ts
      let (r, ts2) ← func ts1
      rec.binLoop func tt mk (mk op.value left r) ts2
    else .ok (left, ts)

/-- `Parser.primary_expression` dispatch (unguarded lookahead access). -/
def primaryExpressionF (rec : PFns) : P AST := fun ts =>
  match ts with
  | [] => .error .attrNone
  | t :: _ =>
    if t.type = .IDENTIFIER then rec.identifierExpression ts
    else if t.value = "match" then rec.matchExpression ts
    else if t.value = "case" then rec.caseExpression ts
    else if t.value = "project" then rec.projectExpression ts
    else if t.value = "partition by" then rec.partitionByExpression ts
    else if t.type = .KEYWORD then rec.functionalExpression ts
    else if t.type = .OPENING_PARENTHESIS then rec.parenthesizedExpression ts
    else if t.type = .OPENING_SQUARE_BRACKET then rec.arrayExpression ts
    else rec.literals ts

/-- `Parser.partition_by_expression`. -/
def partitionByExpressionF (rec : PFns) : P AST := fun ts => do
  let (_, ts1) ← consume .KEYWORD ts
  let (e1, ts2) ← rec.expression ts1
  let (rest, ts3) ← rec.partitionLoop ts2
  .ok (.partitionByExpression (e1 :: rest), ts3)

/-- The comma loop of `partition_by_expression` (unguarded lookahead
access). -/
def partitionLoopF (rec : PFns) : P (List AST) := fun ts =>
  match ts with
  | [] => .error .attrNone
  | t :: _ =>
    if t.type = .COMMA then do
      let (_, ts1) ← consume .COMMA ts
      let (e, ts2) ← rec.expression ts1
      let (rest, ts3) ← rec.partitionLoop ts2
      .ok (e :: rest, ts3)
    else .ok ([], ts)

/-- `Parser.identifier_expression`: a dotted identifier chain; with at
least two segments the node also records `source_table`, the first
segment. -/
def identifierExpressionF (rec : PFns) : P AST := fun ts => do
  let (idt, ts1) ← consume .IDENTIFIER ts
  let (parts, ts2) ← rec.idLoop [idt.value] ts1
  match parts with
  | p :: _ :: _ => .ok (.identifierExpression (String.intercalate "." parts) (some p), ts2)
  | _ => .ok (.identifierExpression (String.intercalate "." parts) none, ts2)

/-- The guarded dot loop of `identifier_expression`. -/
def idLoopF (rec : PFns) (acc : List String) : P (List String) := fun ts =>
  match ts with
  | [] => .ok (acc, ts)
  | t :: _ =>
    if t.type = .DOT then do
      let (_, ts1) ← consume .DOT ts
      let (idt, ts2) ← consume .IDENTIFIER ts1
      rec.idLoop (acc ++ [idt.value]) ts2
    else .ok (acc, ts)

/-- `Parser.array_expression`: `[` literals `]`. -/
def arrayExpressionF (rec : PFns) : P AST := fun ts => do
  let (_, ts1) ← consume .OPENING_SQUARE_BRACKET ts
  let (items, ts2) ← rec.arrayLoop ts1
  let (_, ts3) ← consume .CLOSING_SQUARE_BRACKET ts2
  .ok (.arrayExpression items, ts3)

/-- The item loop of `array_expression` (unguarded lookahead access). -/
def arrayLoopF (rec : PFns) : P (List AST) := fun ts =>
  match ts with
  | [] => .error .attrNone
  | t :: _ =>
    if t.type = .CLOSING_SQUARE_BRACKET then .ok ([], ts)
    else do
      let (l, ts1) ← rec.literals ts
      let (rest, ts2) ← rec.arrayLoop ts1
      .ok (l :: rest, ts2)

/-- One unfolding of every parser method in terms of the record of
recursive occurrences. -/
def pStep (rec : PFns) : PFns where
  statementList := statementListF rec
  statement := statementF rec
  variableAssignment := variableAssignmentF rec
  filterStatementList := filterStatementListF rec
  filterLoop := filterLoopF rec
  filterStatement := filterStatementF rec
  blockStatement := blockStatementF rec
  blockLoop := blockLoopF rec
  columnAssignmentList := columnAssignmentListF rec
  columnAssignLoop := columnAssignLoopF rec
  columnAssignmentStatement := columnAssignmentStatementF rec
  projectExpression := projectExpressionF rec
  parenthesizedExpression := parenthesizedExpressionF rec
  matchExpression := matchExpressionF rec
  matchLoop := matchLoopF rec
  caseExpression := caseExpressionF rec
  functionalExpression := functionalExpressionF rec
  argsLoop := argsLoopF rec
  literals := literalsF rec
  expression := expressionF rec
  joinExpr := joinExprF rec
  logicalOr := logicalOrF rec
  logicalAnd := logicalAndF rec
  equalityExpression := equalityExpressionF rec
  relationalExpression := relationalExpressionF rec
  additiveExpression := additiveExpressionF rec
  multiplicativeExpression := multiplicativeExpressionF rec
  membershipExpression := membershipExpressionF rec
  unaryExpression := unaryExpressionF rec
  unionJoinExpression := unionJoinExpressionF rec
  ujLoop := ujLoopF rec
  binaryExpression := binaryExpressionF rec
  binLoop := binLoopF rec
  primaryExpression := primaryExpressionF rec
  partitionByExpression := partitionByExpressionF rec
  partitionLoop := partitionLoopF rec
  identifierExpression := identifierExpressionF rec
  idLoop := idLoopF rec
  arrayExpression := arrayExpressionF rec
  arrayLoop := arrayLoopF rec

/-- The bottom of the fuel iteration: every entry reports fuel
exhaustion. -/
def pFail : PFns where
  statementList := fun _ => .error .fuelOut
  statement := fun _ => .error .fuelOut
  variableAssignment := fun _ => .error .fuelOut
  filterStatementList := fun _ => .error .fuelOut
  filterLoop := fun _ => .error .fuelOut
  filterStatement := fun _ => .error .fuelOut
  blockStatement := fun _ => .error .fuelOut
  blockLoop := fun _ => .error .fuelOut
  columnAssignmentList := fun _ => .error .fuelOut
  columnAssignLoop := fun _ => .error .fuelOut
  columnAssignmentStatement := fun _ => .error .fuelOut
  projectExpression := fun _ => .error .fuelOut
  parenthesizedExpression := fun _ => .error .fuelOut
  matchExpression := fun _ => .error .fuelOut
  matchLoop := fun _ => .error .fuelOut
  caseExpression := fun _ => .error .fuelOut
  functionalExpression := fun _ => .error .fuelOut
  argsLoop := fun _ => .error .fuelOut
  literals := fun _ => .error .fuelOut
  expression := fun _ => .error .fuelOut
  joinExpr := fun _ => .error .fuelOut
  logicalOr := fun _ => .error .fuelOut
  logicalAnd := fun _ => .error .fuelOut
  equalityExpression := fun _ => .error .fuelOut
  relationalExpression := fun _ => .error .fuelOut
  additiveExpression := fun _ => .error .fuelOut
  multiplicativeExpression := fun _ => .error .fuelOut
  membershipExpression := fun _ => .error .fuelOut
  unaryExpression := fun _ => .error .fuelOut
  unionJoinExpression := fun _ _ => .error .fuelOut
  ujLoop := fun _ _ _ => .error .fuelOut
  binaryExpression := fun _ _ _ _ => .error .fuelOut
  binLoop := fun _ _ _ _ _ => .error .fuelOut
  primaryExpression := fun _ => .error .fuelOut
  partitionByExpression := fun _ => .error .fuelOut
  partitionLoop := fun _ => .error .fuelOut
  identifierExpression := fun _ => .error .fuelOut
  idLoop := fun _ _ => .error .fuelOut
  arrayExpression := fun _ => .error .fuelOut
  arrayLoop := fun _ => .error .fuelOut

/-- The fuel-indexed parser: `pAt n` unfolds the mutual recursion `n`
levels deep.  Every recursive call in the Python parser consumes fuel;
with the generous budget of `parse` below, real runs never reach
`pFail`. -/
def pAt : Nat → PFns
  | 0 => pFail
  | n + 1 => pStep (pAt n)

/-- `Parser.parse`: lex the input and run `statement_list` on the token
stream. -/
def parse (s : String) : Except PErr AST :=
  let toks := lexString s
  ((pAt (64 * (toks.length + 1))).statementList toks).map (fun p => AST.statementList p.1)

end SampleParser

namespace SampleParser

/-- Generator failures, mirroring the Python exception that
`PySparkTransformer` would raise: `typeError` for operations on a value of
the wrong runtime type (string indexing, `str.join` over non-strings),
`keyError` for a missing dict key, `indexError` for indexing an empty
list.  `unmodeled` marks the one spot where Python would instead
interpolate the `repr` of a nested dict (see `valueFieldRVal`); no claim
depends on it.  `fuelOut` is the fuel artifact, unreachable at the budgets
used. -/
inductive GErr where
  | typeError
  | keyError
  | indexError
  | unmodeled
  | fuelOut
  deriving DecidableEq, Repr

/-- A Python runtime value produced by `create_expression`/`create_literal`:
a string, an `int` (from `NumericLiteral`), or `None` (from the fall-through
of `create_literal`). -/
inductive RVal where
  | str (s : String)
  | int (n : Int)
  | none
  deriving DecidableEq, Repr

/-- Interpolation of a value into an f-string: `None` prints as `None`,
ints print in decimal. -/
def fmt : RVal → String
  | .str s => s
  | .int n => toString n
  | .none => "None"

/-- Python truthiness of a generated value: empty string, `0` and `None`
are falsy. -/
def truthy : RVal → Bool
  | .str s => !s.isEmpty
  | .int n => n != 0
  | .none => false

/-- Interpolation of `source_table` (a Python string or `None`). -/
def fmtO : Option String → String
  | some s => s
  | Option.none => "None"

/-- `PySparkTransformer.create_operator`. -/
def createOperator (op : String) : String :=
  if op = "and" then "&" else if op = "or" then "|" else op

/-- `PySparkTransformer.create_literal`: StringLiteral re-quoted with
double quotes, NumericLiteral passed through as the raw `int`, and every
other node type (the NULL node, but also `unary_expression` and any other
kind `create_expression` has no branch for) falls off the end of the
Python function, returning `None`.  The `BooleanLiteral` branch of the
source is dead: the parser never constructs such a node. -/
def createLiteral : AST → RVal
  | .stringLiteral v => .str ("\"" ++ v ++ "\"")
  | .numericLiteral n => .int n
  | _ => .none

/-- The `expr["value"]` access as interpolated into f-strings
(`create_join`, `create_array_expression`) or fed onward: the nodes that
carry a scalar `value` field give it back; nodes without a `value` key
raise `KeyError`.  For the three node kinds whose `value` field holds a
nested dict Python would interpolate the dict's `repr`; that path is not
reachable from the claims below and is marked `unmodeled`. -/
def valueFieldRVal : AST → Except GErr RVal
  | .identifierExpression v _ => .ok (.str v)
  | .stringLiteral v => .ok (.str v)
  | .numericLiteral n => .ok (.int n)
  | .nullLiteral => .ok RVal.none
  | .filterStmt v _ => .ok (.str v)
  | .variableAssignment _ _ => .error .unmodeled
  | .columnAssignmentStatement _ _ => .error .unmodeled
  | .caseExpression _ _ => .error .unmodeled
  | _ => .error .keyError

/-- `str.join` over generated values: Python raises `TypeError` when any
element is not a string. -/
def joinStrs (sep : String) : List RVal → Except GErr String := fun rvs =>
  match allStrs rvs with
  | some ss => .ok (String.intercalate sep ss)
  | Option.none => .error .typeError
where
  allStrs : List RVal → Option (List String)
    | [] => some []
    | .str s :: rest => (allStrs rest).map (fun ss => s :: ss)
    | _ => Option.none

/-- Python's `str.split(".")` on the character level (e.g. `"a.b"` to
`["a", "b"]`, `""` to `[""]`, `"."` to `["", ""]`). -/
def splitDotC : List Char → List (List Char)
  | [] => [[]]
  | c :: rest =>
    let r := splitDotC rest
    if c = '.' then [] :: r
    else
      match r with
      | h :: t => (c :: h) :: t
      | [] => [[c]]

/-- `create_identifier_expression`: a dotted chain of length one renders
verbatim, longer chains render as `first['rest.of.chain']`
(`expr['value'].split(".")` and re-join). -/
def renderIdentifier (v : String) : String :=
  match (splitDotC v.data).map (fun l => (⟨l⟩ : String)) with
  | [] => v
  | [_] => v
  | p :: rest => p ++ "['" ++ String.intercalate "." rest ++ "']"

/-- The item values of `create_array_expression`
(`f-string of item["value"]` for each element). -/
def arrayVals : List AST → Except GErr (List String)
  | [] => .ok []
  | item :: rest => do
    let rv ← valueFieldRVal item
    let vs ← arrayVals rest
    .ok (fmt rv :: vs)

/-- `create_array_expression`: `str([...])` over a Python list of the
item-value strings, i.e. the list's `repr`: each element re-quoted with
single quotes, separated by comma-space.  (The item values contain only
word characters, so Python's repr always picks plain single quotes.) -/
def renderArray (items : List AST) : Except GErr String := do
  let vs ← arrayVals items
  .ok ("[" ++ String.intercalate ", " (vs.map (fun s => "'" ++ s ++ "'")) ++ "]")

/-- The mutually recursive expression-rendering methods of
`PySparkTransformer`, tied by fuel-indexed iteration like the parser. -/
structure TFns where
  createExpression : AST → Except GErr RVal
  createExprList : List AST → Except GErr (List RVal)
  createJoin : AST → Except GErr String
  createUnionExpression : AST → Except GErr String

/-- `PySparkTransformer.create_expression`: dispatch on the node type; any
type with no branch falls through to `create_literal`. -/
def createExpressionF (rec : TFns) : AST → Except GErr RVal := fun e =>
  match e with
  | .membershipExpression _ l r => do
    let lv ← rec.createExpression l
    let rv ← rec.createExpression r
    .ok (.str (fmt lv ++ ".isin(" ++ fmt rv ++ ")"))
  | .binaryExpression op l r => do
    let lv ← rec.createExpression l
    let rv ← rec.createExpression r
    if op = "!=" && !(truthy rv) then
      .ok (.str (fmt lv ++ ".isNotNull()"))
    else if op = "and" || op = "or" then
      .ok (.str ("(" ++ fmt lv ++ (") " ++ createOperator op ++ " (") ++ fmt rv ++ ")"))
    else
      .ok (.str (fmt lv ++ (" " ++ createOperator op ++ " ") ++ fmt rv))
  | .parenthesizedExpression b => do
    let bv ← rec.createExpression b
    .ok (.str ("(" ++ fmt bv ++ ")"))
  | .functionalExpression name args => do
    let rvs ← rec.createExprList args
    let s ← joinStrs "," rvs
    .ok (.str (name ++ "(" ++ s ++ ")"))
  | .identifierExpression v _ => .ok (.str (renderIdentifier v))
  | .arrayExpression items => do
    let s ← renderArray items
    .ok (.str s)
  | .matchExpression body => do
    let rvs ← rec.createExprList body
    let s ← joinStrs "\n." rvs
    .ok (.str s)
  | .caseExpression cond v =>
    match cond with
    | .identifierExpression cv _ =>
      if cv = "_" then do
        let vv ← rec.createExpression v
        .ok (.str ("otherwise(" ++ fmt vv ++ ")"))
      else do
        let cr ← rec.createExpression cond
        let vv ← rec.createExpression v
        .ok (.str ("when(\n" ++ fmt cr ++ ", " ++ fmt vv ++ "\n)"))
    | _ => do
      let cr ← rec.createExpression cond
      let vv ← rec.createExpression v
      .ok (.str ("when(\n" ++ fmt cr ++ ", " ++ fmt vv ++ "\n)"))
  | .unionExpression _ _ => do
    let s ← rec.createUnionExpression e
    .ok (.str s)
  | .joinExpression _ _ _ _ => do
    let s ← rec.createJoin e
    .ok (.str s)
  | _ => .ok (createLiteral e)

/-- The list comprehensions over `create_expression`. -/
def createExprListF (rec : TFns) : List AST → Except GErr (List RVal)
  | [] => .ok []
  | a :: rest => do
    let v ← rec.createExpression a
    let vs ← rec.createExprList rest
    .ok (v :: vs)

/-- `PySparkTransformer.create_join`: a left operand that is itself a Join
or Union re-enters join/union rendering; otherwise both sides render via
their `value` fields. -/
def createJoinF (rec : TFns) : AST → Except GErr String := fun e =>
  match e with
  | .joinExpression jt l r cond =>
    match l with
    | .joinExpression _ _ _ _ => do
      let ls ← rec.createJoin l
      let rv ← valueFieldRVal r
      let cv ← rec.createExpression cond
      .ok (ls ++ ".join(" ++ fmt rv ++ ", on=" ++ fmt cv ++ ", how=\"" ++ jt ++ "\")")
    | .unionExpression _ _ => do
      let ls ← rec.createUnionExpression l
      let rv ← valueFieldRVal r
      let cv ← rec.createExpression cond
      .ok (ls ++ ".join(" ++ fmt rv ++ ", on=" ++ fmt cv ++ ", how=\"" ++ jt ++ "\")")
    | _ => do
      let lv ← valueFieldRVal l
      let rv ← valueFieldRVal r
      let cv ← rec.createExpression cond
      .ok (fmt lv ++ ".join(" ++ fmt rv ++ ", on=" ++ fmt cv ++ ", how=\"" ++ jt ++ "\")")
  | _ => .error .keyError

/-- `PySparkTransformer.create_union_expression`. -/
def createUnionExpressionF (rec : TFns) : AST → Except GErr String := fun e =>
  match e with
  | .unionExpression l r => do
    let lv ← rec.createExpression l
    let rv ← rec.createExpression r
    .ok ("\n" ++ fmt lv ++ ".union(" ++ fmt rv ++ ")\n")
  | _ => .error .keyError

/-- One unfolding of the expression-rendering recursion. -/
def tStep (rec : TFns) : TFns where
  createExpression := createExpressionF rec
  createExprList := createExprListF rec
  createJoin := createJoinF rec
  createUnionExpression := createUnionExpressionF rec

/-- Fuel exhaustion for the expression renderers. -/
def tFail : TFns where
  createExpression := fun _ => .error .fuelOut
  createExprList := fun _ => .error .fuelOut
  createJoin := fun _ => .error .fuelOut
  createUnionExpression := fun _ => .error .fuelOut

/-- The fuel-indexed expression renderer. -/
def tAt : Nat → TFns
  | 0 => tFail
  | n + 1 => tStep (tAt n)

/-- `create_expression` at fuel `n`. -/
def cExpr (n : Nat) : AST → Except GErr RVal :=
  (tAt n).createExpression

/-- `create_expression` mapped over a list at fuel `n`. -/
def cExprList (n : Nat) : List AST → Except GErr (List RVal) :=
  (tAt n).createExprList

/-- Python's truthiness-guarded accumulation in `get_source_table`
(`if res: return res`): a falsy (empty) result keeps scanning. -/
def orTruthy (a b : Option String) : Option String :=
  match a with
  | some s => if s.isEmpty then b else some s
  | Option.none => b

/-- The dict values of each node that `get_source_table` recurses into
(dicts and lists of dicts), in the dict's insertion order. -/
def gstChildren : AST → List AST
  | .statementList body => body
  | .variableAssignment _ v => [v]
  | .blockStatement _ body => body
  | .filterStatementList body => body
  | .filterStmt _ b => [b]
  | .columnAssignmentList body => body
  | .columnAssignmentStatement n v => [n, v]
  | .projectExpression b => [b]
  | .parenthesizedExpression b => [b]
  | .matchExpression body => body
  | .caseExpression c v => [c, v]
  | .functionalExpression _ args => args
  | .partitionByExpression body => body
  | .joinExpression _ l r c => [l, r, c]
  | .unionExpression l r => [l, r]
  | .identifierExpression _ _ => []
  | .unaryExpression _ a => [a]
  | .binaryExpression _ l r => [l, r]
  | .membershipExpression _ l r => [l, r]
  | .arrayExpression body => body
  | .stringLiteral _ => []
  | .numericLiteral _ => []
  | .nullLiteral => []

/-- One node of `PySparkTransformer.get_source_table`: if the node carries
a `source_table` key return it outright, otherwise depth-first scan the
node's dict values, first truthy result wins. -/
def gstF (_recE : AST → Option String) (recL : List AST → Option String) :
    AST → Option String := fun e =>
  match e with
  | .identifierExpression _ (some st) => some st
  | _ => recL (gstChildren e)

/-- The value scan of `get_source_table`. -/
def gstLF (recE : AST → Option String) (recL : List AST → Option String) :
    List AST → Option String
  | [] => Option.none
  | c :: rest => orTruthy (recE c) (recL rest)

/-- The fuel-indexed `get_source_table` (fuel never runs out at the
budgets used below; at fuel zero no table is reported). -/
def gstAt : Nat → ((AST → Option String) × (List AST → Option String))
  | 0 => (fun _ => Option.none, fun _ => Option.none)
  | n + 1 => (gstF (gstAt n).1 (gstAt n).2, gstLF (gstAt n).1 (gstAt n).2)

/-- `get_source_table` at fuel `n`. -/
def gst (n : Nat) : AST → Option String :=
  (gstAt n).1

/-- The `body` dict value where the caller then treats it as a list
(`stmt["body"][0]['body']`, `expr["body"]` iteration).  Nodes whose `body`
is a single nested dict, or that have no `body` key at all, make the
caller raise (`KeyError` on the missing key or on indexing the dict with
`0`); both are collapsed to `keyError` here — in every use below Python
raises before producing any output, exactly as this does. -/
def getBodyList : AST → Except GErr (List AST)
  | .statementList b => .ok b
  | .blockStatement _ b => .ok b
  | .filterStatementList b => .ok b
  | .columnAssignmentList b => .ok b
  | .matchExpression b => .ok b
  | .partitionByExpression b => .ok b
  | .arrayExpression b => .ok b
  | _ => .error .keyError

/-- One column assignment of `create_block_statement`'s rendering loop:
`create_expression(col_assignment['value']).alias(col_assignment['name']['value'])`.
Only a ColumnAssignmentStatement node survives this: on a bare expression
node (the no-`:` parse of a column assignment) `col_assignment['value']`
yields the node's scalar value field — a string — and
`create_expression` then subscripts a string, Python's `TypeError`; nodes
with no `value` field raise `KeyError`. -/
def colAssignRender (n : Nat) : AST → Except GErr String
  | .columnAssignmentStatement name value => do
    let v ← cExpr n value
    let nv ← valueFieldRVal name
    .ok (fmt v ++ ".alias('" ++ fmt nv ++ "')")
  | _ => .error .typeError

/-- The assignment loop of `create_block_statement`. -/
def renderAssigns (n : Nat) : List AST → Except GErr (List String)
  | [] => .ok []
  | a :: rest => do
    let s ← colAssignRender n a
    let ss ← renderAssigns n rest
    .ok (s :: ss)

/-- `create_column_assignment_list`: comma-join of the rendered body items
(raises `TypeError` when an item renders to a non-string). -/
def createColumnAssignmentList (n : Nat) (e : AST) : Except GErr String := do
  let items ← getBodyList e
  let rvs ← cExprList n items
  joinStrs "," rvs

/-- `PySparkTransformer.create_filter`: `where` to `filter(...)`, `having`
to `agg(...)`, `group by` to `groupBy(...)`.  Any other input makes the
Python function return `None`, and the caller's `'\n.'.join` then raises
`TypeError`; that outcome is collapsed into the error here. -/
def createFilter (n : Nat) : AST → Except GErr String
  | .filterStmt v b =>
    if v = "where" then do
      let r ← cExpr n b
      .ok ("filter(" ++ fmt r ++ ")")
    else if v = "having" then do
      let r ← cExpr n b
      .ok ("agg(" ++ fmt r ++ ")")
    else if v = "group by" then do
      let s ← createColumnAssignmentList n b
      .ok ("groupBy(" ++ s ++ ")")
    else .error .typeError
  | _ => .error .typeError

/-- The filter loop of `create_block_statement`. -/
def renderFilters (n : Nat) : List AST → Except GErr (List String)
  | [] => .ok []
  | f :: rest => do
    let s ← createFilter n f
    let ss ← renderFilters n rest
    .ok (s :: ss)

/-- `stmt["body"][1]["body"] if len(stmt["body"]) > 1 else []`, followed by
the filter rendering loop. -/
def filtersPart (n : Nat) : List AST → Except GErr (List String)
  | _ :: f :: _ => do
    let fl ← getBodyList f
    renderFilters n fl
  | _ => .ok []

/-- The pure string-assembly tail of `create_block_statement`: the
`select(...)` chain off the discovered source table, the dot-chained
filters when present (`if joined_filters:`), and the modifier as a final
zero-argument call when truthy (`if stmt.get('modifier'):`). -/
def blockRender (mod : Option String) (sourceTable : Option String)
    (assigns filters : List String) : String :=
  let joinedA := String.intercalate ",\n" assigns
  let joinedF := String.intercalate "\n." filters
  let res0 := fmtO sourceTable ++ ".select(\n" ++ joinedA ++ "\n)"
  let res1 := if joinedF.isEmpty then res0 else res0 ++ "\n." ++ joinedF
  match mod with
  | some m => if m.isEmpty then res1 else res1 ++ ".\n" ++ m ++ "()"
  | Option.none => res1

/-- `PySparkTransformer.create_block_statement`: select list from the
block's first child, source table discovered from the first column
assignment, then filters and the optional modifier call via
`blockRender`.  (Python computes the source table before rendering the
assignments; both are pure, so the order is unobservable.) -/
def createBlockStatement (n : Nat) : AST → Except GErr String
  | .blockStatement mod body => do
    let first ← match body with
      | [] => .error .indexError
      | x :: _ => .ok x
    let colAssignments ← getBodyList first
    let firstCA ← match colAssignments with
      | [] => .error .indexError
      | x :: _ => .ok x
    let assigns ← renderAssigns n colAssignments
    let filters ← filtersPart n body
    .ok (blockRender mod (gst n firstCA) assigns filters)
  | _ => .error .keyError

/-- `PySparkTransformer.create_project_expression`. -/
def createProjectExpression (n : Nat) : AST → Except GErr String
  | .projectExpression b => createBlockStatement n b
  | _ => .error .keyError

/-- `PySparkTransformer.create_variable_assignment`. -/
def createVariableAssignment (n : Nat) : AST → Except GErr String
  | .variableAssignment name value => do
    let body ← match value with
      | .blockStatement _ _ => createBlockStatement n value
      | .projectExpression _ => createProjectExpression n value
      | _ => do
        let r ← cExpr n value
        .ok (fmt r)
    .ok (name ++ " = (\n" ++ body ++ "\n.alias('" ++ name ++ "')\n)\n")
  | _ => .error .keyError

/-- The top-level loop of `PySparkTransformer.transform`: only
VariableAssignment and ProjectExpression items contribute output. -/
def transformItems (n : Nat) : List AST → Except GErr (List String)
  | [] => .ok []
  | item :: rest => do
    let pre ← match item with
      | .variableAssignment _ _ => do
        let s ← createVariableAssignment n item
        .ok [s]
      | .projectExpression _ => do
        let s ← createProjectExpression n item
        .ok [s]
      | _ => .ok ([] : List String)
    let more ← transformItems n rest
    .ok (pre ++ more)

/-- `PySparkTransformer.transform` at expression fuel `n`; it is invoked
on the StatementList that `parse` produces. -/
def transform (n : Nat) : AST → Except GErr String
  | .statementList body => do
    let parts ← transformItems n body
    .ok (String.intercalate "\n" parts)
  | _ => .error .typeError

/-- `generate`: the code-generation entry point of the spec
(`PySparkTransformer.transform`), at expression fuel `n`.  Any `n`
exceeding the nesting depth of the AST behaves like the Python function;
all theorems below either use a concrete sufficient budget or quantify
over `n`. -/
def generate (n : Nat) (ast : AST) : Except GErr String :=
  transform n ast

end SampleParser

namespace SampleParser

/-- The parse tree of `let x = { a }`: the block's single column assignment
is written without `:`, so the parser returns the bare IdentifierExpression
(no ColumnAssignmentStatement wrapper). -/
def c2Ast : AST :=
  .statementList [.variableAssignment "x"
    (.blockStatement Option.none
      [.columnAssignmentList [.identifierExpression "a" Option.none]])]

/-- Claim C2: the spec says generation is total over parse-produced ASTs
and that a column assignment without `:` passes the name expression
through unaliased.  The code refutes this: `let x = \x7b a \x7d` parses, but
`create_block_statement` reads `col_assignment['value']` off the bare
identifier node — the string `"a"` — and `create_expression` then
subscripts a string, Python's TypeError. -/
theorem c2_bare_assignment_generation_fails :
    parse "let x = \x7b a \x7d" = .ok c2Ast ∧ generate 10 c2Ast = .error .typeError :=
  ⟨rfl, rfl⟩

/-- Claim C1: the end-to-end scenario input of the spec.  Parsing already
fails with `SyntaxError` (expected NULL): `count` after `{` is consumed as
the block's modifier, `(a)` parses as a parenthesized expression, and the
following comma falls through every dispatch to `null_literal`. -/
theorem c1_end_to_end_scenario_fails :
    parse "let x = \x7b count(a), b: sum(c) where a > 1 group by b \x7d" =
      .error (.syntaxError .NULL) :=
  rfl

/-- The left-nested join tree that the spec expects for
`a join b on a.id == b.id join c on b.id == c.id`. -/
def c4Tree : AST :=
  .joinExpression "join"
    (.joinExpression "join"
      (.identifierExpression "a" Option.none)
      (.identifierExpression "b" Option.none)
      (.binaryExpression "=="
        (.identifierExpression "a.id" (some "a"))
        (.identifierExpression "b.id" (some "b"))))
    (.identifierExpression "c" Option.none)
    (.binaryExpression "=="
      (.identifierExpression "b.id" (some "b"))
      (.identifierExpression "c.id" (some "c")))

/-- Claim C4: parsing the join-chain input crashes — after the expression
consumes every token, `column_assignment_statement` reads
`self._lookahead.type` with no lookahead left (AttributeError) — so parse
does not return the nested tree; the generator itself, applied to that
tree, does produce the nested two-level rendering the spec describes. -/
theorem c4_join_chain_parse_crashes :
    parse "a join b on a.id == b.id join c on b.id == c.id" = .error .attrNone ∧
    cExpr 8 c4Tree =
      .ok (.str "a.join(b, on=a['id'] == b['id'], how=\"join\").join(c, on=b['id'] == c['id'], how=\"join\")") :=
  ⟨rfl, rfl⟩

/-- Claim C5: expecting a token on an exhausted stream never raises the
distinct end-of-input error: `_consume` dereferences the absent lookahead
first (AttributeError), for every expected kind; e.g. parsing `let`
crashes this way instead of reporting end of input. -/
theorem c5_exhaustion_hits_attribute_error :
    parse "let" = .error .attrNone ∧
    ∀ tt : TokType, consume tt [] = .error .attrNone :=
  ⟨rfl, fun _ => rfl⟩

end SampleParser

namespace SampleParser

/-- Claim C6 counterexample: for `a != 0` the right-hand operand renders to
the non-empty text `0`, yet the generator emits `a.isNotNull()` rather
than the ordinary comparison — the trigger is Python falsiness of the
rendered value, not emptiness of its rendering. -/
theorem c6_counterexample_zero_right :
    cExpr 2 (.binaryExpression "!=" (.identifierExpression "a" Option.none) (.numericLiteral 0)) =
      .ok (.str "a.isNotNull()") ∧
    cExpr 2 (.numericLiteral 0) = .ok (.int 0) ∧
    fmt (.int 0) = "0" ∧ ("0" : String) ≠ "" :=
  ⟨rfl, rfl, rfl, by decide⟩

/-- Claim C6 (amended): a `!=` BinaryExpression renders as
`left.isNotNull()` exactly when the right operand's rendered value is
Python-falsy (`None`, the int `0`, or an empty string), and as the
ordinary spaced comparison otherwise. -/
theorem c6_isNotNull_iff_right_falsy :
    ∀ (n : Nat) (l r : AST) (lv rv : RVal),
      cExpr n l = .ok lv → cExpr n r = .ok rv →
      cExpr (n + 1) (.binaryExpression "!=" l r) =
        .ok (.str (if truthy rv then fmt lv ++ " != " ++ fmt rv else fmt lv ++ ".isNotNull()")) := by
  intro n l r lv rv hl hr
  show createExpressionF (tAt n) (.binaryExpression "!=" l r) = _
  simp only [createExpressionF]
  show ((cExpr n l).bind fun lv => (cExpr n r).bind fun rv => _) = _
  rw [hl, hr]
  simp only [Except.bind]
  cases htr : truthy rv with
  | false => simp [htr]
  | true => simp [htr, createOperator]

/-- Witness for the amended C6 at concrete inputs (`b != 3` keeps the
comparison, `b != 0` becomes the null check). -/
theorem c6_witness :
    cExpr 2 (.binaryExpression "!=" (.identifierExpression "b" Option.none) (.numericLiteral 3)) =
      .ok (.str "b != 3") ∧
    cExpr 2 (.binaryExpression "!=" (.identifierExpression "b" Option.none) (.stringLiteral "q")) =
      .ok (.str ("b != " ++ "\"q\"")) := by
  constructor
  · exact c6_isNotNull_iff_right_falsy 1 _ _ (.str "b") (.int 3) rfl rfl
  · exact c6_isNotNull_iff_right_falsy 1 _ _ (.str "b") (.str "\"q\"") rfl rfl

/-- Claim C8: a `!=` whose right operand is the null literal (rendered
`None` by `create_literal`'s fall-through) or the numeric literal `0`
(rendered as the raw falsy int) triggers the `isNotNull` branch. -/
theorem c8_null_or_zero_right_gives_isNotNull :
    ∀ (n : Nat) (l : AST) (lv : RVal), cExpr n l = .ok lv →
      cExpr (n + 1) (.binaryExpression "!=" l .nullLiteral) =
        .ok (.str (fmt lv ++ ".isNotNull()")) ∧
      cExpr (n + 1) (.binaryExpression "!=" l (.numericLiteral 0)) =
        .ok (.str (fmt lv ++ ".isNotNull()")) := by
  intro n l lv hl
  cases n with
  | zero => simp [cExpr, tAt, tFail] at hl
  | succ m =>
    simp only [cExpr] at hl
    refine ⟨?_, ?_⟩
    · show createExpressionF (tAt (m + 1)) (.binaryExpression "!=" l .nullLiteral) =
        .ok (.str (fmt lv ++ ".isNotNull()"))
      simp only [createExpressionF]
      rw [hl, show (tAt (m + 1)).createExpression AST.nullLiteral = .ok RVal.none from rfl]
      rfl
    · show createExpressionF (tAt (m + 1)) (.binaryExpression "!=" l (.numericLiteral 0)) =
        .ok (.str (fmt lv ++ ".isNotNull()"))
      simp only [createExpressionF]
      rw [hl, show (tAt (m + 1)).createExpression (AST.numericLiteral 0) = .ok (RVal.int 0) from rfl]
      rfl

/-- Witness for C8 at the concrete left operand `a`. -/
theorem c8_witness :
    cExpr 2 (.binaryExpression "!=" (.identifierExpression "a" Option.none) .nullLiteral) =
      .ok (.str "a.isNotNull()") ∧
    cExpr 2 (.binaryExpression "!=" (.identifierExpression "a" Option.none) (.numericLiteral 0)) =
      .ok (.str "a.isNotNull()") :=
  c8_null_or_zero_right_gives_isNotNull 1 _ (.str "a") rfl

end SampleParser

namespace SampleParser

/-- Claim C7 counterexample: the array `[1, 2]` renders as `['1', '2']` —
each item quoted by the Python list repr — not as the unquoted `[1, 2]`
the claim describes. -/
theorem c7_counterexample_items_quoted :
    cExpr 1 (.arrayExpression [.numericLiteral 1, .numericLiteral 2]) =
      .ok (.str "['1', '2']") ∧
    ("['1', '2']" : String) ≠ "[1, 2]" :=
  ⟨rfl, by decide⟩

/-- The node kinds the parser accepts as array items (`Parser.literals`). -/
def isArrayLiteralNode : AST → Bool
  | .stringLiteral _ => true
  | .numericLiteral _ => true
  | .nullLiteral => true
  | _ => false

/-- The f-string text of one array item's raw `value` field: the stripped
string, the decimal int, or `None` for the null literal. -/
def litItemText : AST → String
  | .stringLiteral v => v
  | .numericLiteral n => toString n
  | .nullLiteral => "None"
  | _ => ""

/-- The item texts of a literal array are exactly the raw value
f-strings. -/
theorem arrayVals_on_literals :
    ∀ items : List AST, (∀ a ∈ items, isArrayLiteralNode a = true) →
      arrayVals items = .ok (items.map litItemText) := by
  intro items h
  induction items with
  | nil => rfl
  | cons a rest ih =>
    have ha : isArrayLiteralNode a = true := h a (List.mem_cons_self a rest)
    have hr := ih (fun x hx => h x (List.mem_cons_of_mem a hx))
    cases a
    case stringLiteral v =>
      show (arrayVals rest).bind (fun vs => Except.ok (v :: vs)) = _
      rw [hr]
      rfl
    case numericLiteral m =>
      show (arrayVals rest).bind (fun vs => Except.ok (toString m :: vs)) = _
      rw [hr]
      rfl
    case nullLiteral =>
      show (arrayVals rest).bind (fun vs => Except.ok ("None" :: vs)) = _
      rw [hr]
      rfl
    all_goals simp [isArrayLiteralNode] at ha

/-- Claim C7 (amended): an ArrayExpression of literal items renders as the
Python repr of the list of item-value texts — each item wrapped in single
quotes, comma-space separated — not as unquoted raw values. -/
theorem c7_array_renders_quoted_repr :
    ∀ (n : Nat) (items : List AST), (∀ a ∈ items, isArrayLiteralNode a = true) →
      cExpr (n + 1) (.arrayExpression items) =
        .ok (.str ("[" ++ String.intercalate ", "
          (items.map (fun a => "'" ++ litItemText a ++ "'")) ++ "]")) := by
  intro n items h
  show createExpressionF (tAt n) (.arrayExpression items) = _
  simp only [createExpressionF, renderArray]
  rw [arrayVals_on_literals items h]
  show Except.ok (RVal.str ("[" ++ String.intercalate ", "
    ((items.map litItemText).map (fun s => "'" ++ s ++ "'")) ++ "]")) = _
  rw [List.map_map]
  rfl

/-- Witness for the amended C7 at a concrete literal array. -/
theorem c7_witness :
    cExpr 1 (.arrayExpression [.numericLiteral 3, .nullLiteral, .stringLiteral "ab"]) =
      .ok (.str "['3', 'None', 'ab']") := by
  exact c7_array_renders_quoted_repr 0
    [.numericLiteral 3, .nullLiteral, .stringLiteral "ab"] (by decide)

end SampleParser

namespace SampleParser

/-- `s` begins with the literal characters of `p`. -/
def strPre (p s : String) : Prop :=
  ∃ r, s = p ++ r

/-- Appending on the right preserves a leading prefix. -/
theorem strPre_shift (p a b : String) (h : strPre p a) : strPre p (a ++ b) := by
  obtain ⟨r, rfl⟩ := h
  exact ⟨r ++ b, congrArg String.mk (List.append_assoc p.data r.data b.data)⟩

/-- With no source table discovered, the block rendering always starts with
the characters `None.select(`. -/
theorem blockRender_none_pre (mod : Option String) (ss fs : List String) :
    strPre "None.select(" (blockRender mod Option.none ss fs) := by
  have h0 : strPre "None.select("
      (fmtO Option.none ++ ".select(\n" ++ String.intercalate ",\n" ss ++ "\n)") :=
    strPre_shift _ _ _ (strPre_shift _ _ _ ⟨"\n", rfl⟩)
  simp only [blockRender]
  obtain _ | m := mod
  · dsimp only
    split
    · exact h0
    · exact strPre_shift _ _ _ (strPre_shift _ _ _ h0)
  · dsimp only
    split
    · split
      · exact h0
      · exact strPre_shift _ _ _ (strPre_shift _ _ _ h0)
    · refine strPre_shift _ _ _ (strPre_shift _ _ _ (strPre_shift _ _ _ ?_))
      split
      · exact h0
      · exact strPre_shift _ _ _ (strPre_shift _ _ _ h0)

/-- Claim C9 counterexample: a block whose first column assignment has a
source-table-free VALUE but a dotted NAME: `get_source_table` scans the
whole assignment dict — name first — so the emitted text begins with
`a.select(`, not `None.select(`. -/
theorem c9_counterexample_name_carries_table :
    createBlockStatement 5 (.blockStatement Option.none
      [.columnAssignmentList [.columnAssignmentStatement
        (.identifierExpression "a.b" (some "a")) (.identifierExpression "c" Option.none)]]) =
      .ok "a.select(\nc.alias('a.b')\n)" ∧
    gst 5 (.identifierExpression "c" Option.none) = Option.none ∧
    ¬ strPre "None.select(" "a.select(\nc.alias('a.b')\n)" := by
  refine ⟨rfl, rfl, ?_⟩
  rintro ⟨r, hr⟩
  have h2 : ("a.select(\nc.alias('a.b')\n)").data = "None.select(".data ++ r.data :=
    congrArg String.data hr
  have h4 := congrArg (List.take 12) h2
  rw [show (12 : Nat) = "None.select(".data.length from rfl, List.take_left] at h4
  exact absurd h4 (by decide)

/-- Claim C9 (amended): when the depth-first search over the WHOLE first
column assignment finds no `source_table`, block generation does not fail
on that account and the emitted text begins `None.select(` — the f-string
interpolates Python `None` into the source slot. -/
theorem c9_no_source_table_renders_none :
    ∀ (n : Nat) (mod : Option String) (a1 : AST) (asRest rest : List AST)
      (ss fs : List String),
      gst n a1 = Option.none →
      renderAssigns n (a1 :: asRest) = .ok ss →
      filtersPart n (AST.columnAssignmentList (a1 :: asRest) :: rest) = .ok fs →
      ∃ out, createBlockStatement n
          (.blockStatement mod (.columnAssignmentList (a1 :: asRest) :: rest)) = .ok out ∧
        strPre "None.select(" out := by
  intro n mod a1 asRest rest ss fs h1 h2 h3
  have key : createBlockStatement n
      (.blockStatement mod (.columnAssignmentList (a1 :: asRest) :: rest)) =
      (renderAssigns n (a1 :: asRest)).bind (fun assigns =>
        (filtersPart n (AST.columnAssignmentList (a1 :: asRest) :: rest)).bind (fun filters =>
          Except.ok (blockRender mod (gst n a1) assigns filters))) := rfl
  rw [h1, h2, h3] at key
  exact ⟨blockRender mod Option.none ss fs, key, blockRender_none_pre mod ss fs⟩

/-- Witness for the amended C9: the block of `{ a: b }` renders as
`None.select(...)`. -/
theorem c9_witness :
    ∃ out, createBlockStatement 3
        (.blockStatement Option.none [AST.columnAssignmentList
          [.columnAssignmentStatement (.identifierExpression "a" Option.none)
            (.identifierExpression "b" Option.none)]]) = .ok out ∧
      strPre "None.select(" out :=
  c9_no_source_table_renders_none 3 Option.none
    (.columnAssignmentStatement (.identifierExpression "a" Option.none)
      (.identifierExpression "b" Option.none)) [] [] ["b.alias('a')"] [] rfl rfl rfl

end SampleParser

namespace SampleParser

/-- Claim C10: whenever the token after `{` is of KEYWORD kind — `count`,
`sum`, any of the fourteen keywords, not just `distinct` — a successful
`block_statement` parse records that token's text as the block's modifier
(so that keyword is never available to open a functional expression in
the block body). -/
theorem c10_any_keyword_after_brace_is_modifier :
    ∀ (n : Nat) (bv v : String) (toks : List Token) (b : AST) (rest : List Token),
      (pAt n).blockStatement ({ type := .OPENING_CURLY_BRACKET, value := bv } ::
        { type := .KEYWORD, value := v } :: toks) = .ok (b, rest) →
      ∃ stmts, b = .blockStatement (some v) stmts := by
  intro n bv v toks b rest h
  cases n with
  | zero => exact absurd h (by simp [pAt, pFail])
  | succ m =>
    have h1 : ((pAt m).blockLoop toks).bind (fun p =>
        (consume .CLOSING_CURLY_BRACKET p.2).bind (fun q =>
          Except.ok (AST.blockStatement (some v) p.1, q.2))) = Except.ok (b, rest) := h
    cases hb : (pAt m).blockLoop toks with
    | error e => rw [hb] at h1; exact absurd h1 (by simp [Except.bind])
    | ok p =>
      rw [hb] at h1
      have h2 : (consume .CLOSING_CURLY_BRACKET p.2).bind (fun q =>
          Except.ok (AST.blockStatement (some v) p.1, q.2)) = Except.ok (b, rest) := h1
      cases hc : consume .CLOSING_CURLY_BRACKET p.2 with
      | error e => rw [hc] at h2; exact absurd h2 (by simp [Except.bind])
      | ok q =>
        rw [hc] at h2
        have h3 : Except.ok (ε := PErr) (AST.blockStatement (some v) p.1, q.2) =
            Except.ok (b, rest) := h2
        injection h3 with h4
        exact ⟨p.1, (congrArg Prod.fst h4).symm⟩

/-- Witness for C10: `\x7b count (a) \x7d` parses with modifier `count` and a
parenthesized body statement. -/
theorem c10_witness :
    ∃ stmts, AST.blockStatement (some "count")
        [AST.parenthesizedExpression (.identifierExpression "a" Option.none)] =
      .blockStatement (some "count") stmts :=
  c10_any_keyword_after_brace_is_modifier 64 "\x7b" "count"
    [{ type := .OPENING_PARENTHESIS, value := "(" },
     { type := .IDENTIFIER, value := "a" },
     { type := .CLOSING_PARENTHESIS, value := ")" },
     { type := .CLOSING_CURLY_BRACKET, value := "\x7d" }]
    (.blockStatement (some "count")
      [.parenthesizedExpression (.identifierExpression "a" Option.none)]) [] rfl

end SampleParser

namespace SampleParser

/-- Join words with single spaces (character level). -/
def joinC : List (List Char) → List Char
  | [] => []
  | [w] => w
  | w :: rest => w ++ ' ' :: joinC rest

/-- Join a list of strings with single spaces. -/
def joinWords (ws : List String) : String :=
  ⟨joinC (ws.map String.data)⟩

/-- Re-join the texts of the tokens the tokenizer produces, in order, with
single spaces. -/
def joinTokens (s : String) : String :=
  ⟨joinC ((lexString s).map (fun t => t.value.data))⟩

/-- The single-character and operator token surfaces, minus `>=` and `<=`
(which the tokenizer splits, see the C3 counterexample). -/
def symLits : List (List Char) :=
  [['=', '>'], [':'], ['>'], ['<'], ['=', '='], ['!', '='], ['*'], ['/'],
   ['+'], ['-'], ['='], ['.'], [','], ['['], [']'], ['('], [')'],
   ['\x7b'], ['\x7d']]

/-- The two-word token surfaces. -/
def twoWordLits : List (List Char) :=
  [['l', 'e', 'f', 't', ' ', 'j', 'o', 'i', 'n'],
   ['r', 'i', 'g', 'h', 't', ' ', 'j', 'o', 'i', 'n'],
   ['g', 'r', 'o', 'u', 'p', ' ', 'b', 'y'],
   ['u', 'n', 'i', 'o', 'n', ' ', 'a', 'l', 'l'],
   ['p', 'a', 'r', 't', 'i', 't', 'i', 'o', 'n', ' ', 'b', 'y']]

/-- A word-shaped surface token: identifiers, numbers, and the single-word
keywords (which all lex to a single token with their own text).  A leading
digit is allowed only on all-digit tokens: the NUMBER rule would split
`1a` into `1` and `a`. -/
def wordShaped (w : List Char) : Bool :=
  !w.isEmpty && w.all isWordChar &&
    (w.all Char.isDigit || (match w with | c :: _ => !c.isDigit | [] => false))

/-- A string-literal surface token: quote, nonempty word characters,
quote. -/
def strShaped (w : List Char) : Bool :=
  match w with
  | q :: rest =>
    isQuote q &&
      (match rest.reverse with
       | q2 :: mid => isQuote q2 && !mid.isEmpty && mid.reverse.all isWordChar
       | [] => false)
  | [] => false

/-- A grammar-recognized surface token (the amended domain of C3). -/
def goodWordB (w : List Char) : Bool :=
  decide (w ∈ symLits) || decide (w ∈ twoWordLits) || wordShaped w || strShaped w

/-- The adjacency exclusion of the amended C3: a `right` token must not be
followed by a token that properly extends `join`, since the `right join`
pattern has no trailing boundary and would consume across the gap. -/
def pairOKB (a b : List Char) : Bool :=
  !(a = ['r', 'i', 'g', 'h', 't'] && ['j', 'o', 'i', 'n'].isPrefixOf b &&
    b ≠ ['j', 'o', 'i', 'n'])

/-- The pair condition over consecutive words. -/
def pairChain : List (List Char) → Bool
  | w :: w2 :: rest => pairOKB w w2 && pairChain (w2 :: rest)
  | _ => true

/-- The amended C3 domain: every word is a recognized surface token, and no
`right` is followed by a proper extension of `join`. -/
def wordsOKC (l : List (List Char)) : Bool :=
  l.all goodWordB && pairChain l

/-- The words that can merge with their successor into one two-word token. -/
def mergePair (w w2 : List Char) : Bool :=
  (w = ['l', 'e', 'f', 't'] && w2 = ['j', 'o', 'i', 'n']) ||
  (w = ['r', 'i', 'g', 'h', 't'] && w2 = ['j', 'o', 'i', 'n']) ||
  (w = ['g', 'r', 'o', 'u', 'p'] && w2 = ['b', 'y']) ||
  (w = ['u', 'n', 'i', 'o', 'n'] && w2 = ['a', 'l', 'l']) ||
  (w = ['p', 'a', 'r', 't', 'i', 't', 'i', 'o', 'n'] && w2 = ['b', 'y'])

/-- The continuation is a word separator: nothing, or a space. -/
def sepAt (cs : List Char) : Prop :=
  cs = [] ∨ ∃ cs2, cs = ' ' :: cs2

/-- A space position matches no rule: every pattern starts with a non-space
character. -/
theorem tryRules_space (p : Bool) (cs : List Char) : tryRules p (' ' :: cs) = none := by
  cases p <;> rfl

/-- The scanner skips the separating space. -/
theorem lexCF_space (f : Nat) (p : Bool) (cs : List Char) :
    lexCF (f + 1) p (' ' :: cs) = lexCF f false cs := by
  show (match tryRules p (' ' :: cs) with
    | some (ty, text, r) => ⟨ty, ⟨text⟩⟩ :: lexCF f (prevOf text) r
    | none => lexCF f (isWordChar ' ') cs) = lexCF f false cs
  rw [tryRules_space]
  rfl

/-- The scanner stops on empty input at any fuel. -/
theorem lexCF_nil (f : Nat) (p : Bool) : lexCF f p [] = [] := by
  cases f <;> rfl

end SampleParser

namespace SampleParser

/-- A separator position is a word boundary. -/
theorem wordBreak_sep (cs : List Char) (h : sepAt cs) : wordBreakAt cs = true := by
  rcases h with rfl | ⟨cs2, rfl⟩ <;> rfl

/-- A literal matches its own text plus continuation. -/
theorem matchLit_self : ∀ (kw cs : List Char), matchLit kw (kw ++ cs) = some cs := by
  intro kw
  induction kw with
  | nil => intro cs; rfl
  | cons c kw' ih => intro cs; simp [matchLit, ih]

/-- Matching an all-word literal against an all-word token followed by a
separator: exact match, the literal is a proper prefix of the token (the
remainder starts with a word character), or failure. -/
theorem matchLit_word_tri :
    ∀ (cont w2 tail : List Char), cont.all isWordChar = true → w2.all isWordChar = true →
      sepAt tail →
      (cont = w2 ∧ matchLit cont (w2 ++ tail) = some tail) ∨
      (∃ d ds, w2 = cont ++ d :: ds ∧ isWordChar d = true ∧
        matchLit cont (w2 ++ tail) = some (d :: ds ++ tail)) ∨
      matchLit cont (w2 ++ tail) = none := by
  intro cont
  induction cont with
  | nil =>
    intro w2 tail _ hw2 _
    cases w2 with
    | nil => exact Or.inl ⟨rfl, rfl⟩
    | cons d ds =>
      simp only [List.all_cons, Bool.and_eq_true] at hw2
      exact Or.inr (Or.inl ⟨d, ds, rfl, hw2.1, rfl⟩)
  | cons c cont' ih =>
    intro w2 tail hc htw2 htail
    simp only [List.all_cons, Bool.and_eq_true] at hc
    cases w2 with
    | nil =>
      right; right
      rcases htail with rfl | ⟨cs2, rfl⟩
      · rfl
      · have hne : ¬ (' ' = c) := by
          intro hcc
          rw [← hcc] at hc
          simp [isWordChar] at hc
        show matchLit (c :: cont') (' ' :: cs2) = none
        simp [matchLit, hne]
    | cons d ds =>
      simp only [List.all_cons, Bool.and_eq_true] at htw2
      by_cases hdc : d = c
      · subst hdc
        have step : matchLit (d :: cont') ((d :: ds) ++ tail) = matchLit cont' (ds ++ tail) := by
          simp [matchLit]
        rcases ih ds tail hc.2 htw2.2 htail with ⟨heq, hm⟩ | ⟨e, es, hds, hwe, hm⟩ | hm
        · exact Or.inl ⟨by rw [heq], by rw [step, hm]⟩
        · exact Or.inr (Or.inl ⟨e, es, by simp [hds], hwe, by rw [step, hm]⟩)
        · exact Or.inr (Or.inr (by rw [step, hm]))
      · right; right
        show matchLit (c :: cont') ((d :: ds) ++ tail) = none
        simp [matchLit, hdc]

/-- A maximal run of `P`-characters stops exactly at the first non-`P`
position. -/
theorem takeWhile_append_all (P : Char → Bool) :
    ∀ (w cs : List Char), w.all P = true →
      (match cs with | [] => true | c :: _ => !P c) = true →
      (w ++ cs).takeWhile P = w := by
  intro w
  induction w with
  | nil =>
    intro cs _ hcs
    cases cs with
    | nil => rfl
    | cons c rest =>
      simp only [Bool.not_eq_true'] at hcs
      simp [List.takeWhile, hcs]
  | cons a w' ih =>
    intro cs hall hcs
    simp only [List.all_cons, Bool.and_eq_true] at hall
    simp [List.takeWhile, hall.1, ih cs hall.2 hcs]

end SampleParser

namespace SampleParser

/-- Word characters are not spaces, quotes, or rule-head symbols. -/
theorem isWordChar_not_space {c : Char} (h : isWordChar c = true) : ¬ (c = ' ') := by
  intro hc; subst hc; simp [isWordChar] at h

/-- Quotes are not word characters. -/
theorem isQuote_not_word {c : Char} (h : isQuote c = true) : isWordChar c = false := by
  rcases Bool.or_eq_true_iff.mp h with h1 | h1 <;>
    · rw [show c = _ from by simpa [isQuote] using h1]
      decide

/-- A single-word keyword rule against a word token plus separator matches
exactly when the token is that keyword. -/
theorem kwRule_on_word (kw w cs : List Char) (hkw : kw.all isWordChar = true)
    (hw : w.all isWordChar = true) (hcs : sepAt cs) :
    kwRule false kw (w ++ cs) = if w = kw then some (kw, cs) else none := by
  rcases matchLit_word_tri kw w cs hkw hw hcs with ⟨heq, hm⟩ | ⟨d, ds, hds, hwd, hm⟩ | hm
  · subst heq
    simp [kwRule, hm, wordBreak_sep cs hcs]
  · have hne : ¬ (w = kw) := by
      rw [hds]; intro hcon
      have := congrArg List.length hcon
      simp at this
    simp [kwRule, hm, wordBreakAt, hwd, hne]
  · have hne : ¬ (w = kw) := by
      intro he; subst he
      rw [matchLit_self] at hm
      cases hm
    simp [kwRule, hm, hne]

/-- A two-word keyword rule against a word token plus separator reduces to
its continuation match exactly when the token is the first word. -/
theorem kw2Rule_on_word (w1 cont : List Char) (nb : Bool) (w cs : List Char)
    (h1 : w1.all isWordChar = true) (hw : w.all isWordChar = true) (hcs : sepAt cs) :
    kw2Rule false w1 cont nb (w ++ cs) =
      if w = w1 then (contPart cont nb cs).map (fun r2 => (w1 ++ ' ' :: cont, r2))
      else none := by
  rcases matchLit_word_tri w1 w cs h1 hw hcs with ⟨heq, hm⟩ | ⟨d, ds, hds, hwd, hm⟩ | hm
  · subst heq
    simp [kw2Rule, hm]
  · have hne : ¬ (w = w1) := by
      rw [hds]; intro hcon
      have := congrArg List.length hcon
      simp at this
    have hd : ¬ (d = ' ') := isWordChar_not_space hwd
    simp [kw2Rule, hm, contPart, matchLit, hd, hne]
  · have hne : ¬ (w = w1) := by
      intro he; subst he
      rw [matchLit_self] at hm
      cases hm
    simp [kw2Rule, hm, hne]

/-- A symbol literal rule fails at a word character. -/
theorem litRule_word_head (l : Char) (ls : List Char) (c : Char) (rest : List Char)
    (hc : isWordChar c = true) (hl : isWordChar l = false) :
    litRule (l :: ls) (c :: rest) = none := by
  have : ¬ (c = l) := by intro h; rw [h, hl] at hc; cases hc
  simp [litRule, matchLit, this]

/-- An alternation of symbol literal rules fails at a word character. -/
theorem litsRule_word_head (lits : List (List Char)) (c : Char) (rest : List Char)
    (hc : isWordChar c = true)
    (hl : lits.all (fun lit => match lit with
      | l :: _ => !isWordChar l
      | [] => false) = true) :
    litsRule lits (c :: rest) = none := by
  induction lits with
  | nil => rfl
  | cons lit lits' ih =>
    simp only [List.all_cons, Bool.and_eq_true] at hl
    cases lit with
    | nil => simp at hl
    | cons l ls =>
      simp only [Bool.not_eq_true'] at hl
      rw [litsRule, litRule_word_head l ls c rest hc hl.1, ih hl.2]
      rfl

/-- The NUMBER rule consumes an all-digit token exactly. -/
theorem numRule_digits (w cs : List Char) (hw : w.all Char.isDigit = true)
    (hne : w ≠ []) (hcs : sepAt cs) : numRule (w ++ cs) = some (w, cs) := by
  have htw : (w ++ cs).takeWhile Char.isDigit = w := by
    refine takeWhile_append_all Char.isDigit w cs hw ?_
    rcases hcs with rfl | ⟨cs2, rfl⟩ <;> simp
  rw [numRule]
  simp only [htw, List.isEmpty_eq_true]
  rw [if_neg hne, List.drop_left]

/-- The NUMBER rule fails at a non-digit head. -/
theorem numRule_nondigit (c : Char) (w' rest : List Char) (hc : c.isDigit = false) :
    numRule (c :: w' ++ rest) = none := by
  simp [numRule, List.takeWhile, hc]

/-- The IDENTIFIER rule consumes a word token exactly. -/
theorem wordRule_word (w cs : List Char) (hw : w.all isWordChar = true)
    (hne : w ≠ []) (hcs : sepAt cs) : wordRule (w ++ cs) = some (w, cs) := by
  have htw : (w ++ cs).takeWhile isWordChar = w := by
    refine takeWhile_append_all isWordChar w cs hw ?_
    rcases hcs with rfl | ⟨cs2, rfl⟩ <;> simp [isWordChar]
  rw [wordRule]
  simp only [htw, List.isEmpty_eq_true]
  rw [if_neg hne, List.drop_left]

/-- The STRING rule fails at a word character. -/
theorem strRule_word_head (c : Char) (w' rest : List Char) (hc : isWordChar c = true) :
    strRule (c :: w' ++ rest) = none := by
  have h1 : ¬ (c = '\'') := by intro h; subst h; simp [isWordChar] at hc
  have h2 : ¬ (c = '"') := by intro h; subst h; simp [isWordChar] at hc
  simp [strRule, isQuote, h1, h2]

/-- The STRING rule consumes a string-shaped token exactly. -/
theorem strRule_shaped (w cs : List Char) (h : strShaped w = true) :
    strRule (w ++ cs) = some (w, cs) := by
  cases w with
  | nil => cases h
  | cons q rest =>
    simp only [strShaped] at h
    rcases hrev : rest.reverse with _ | ⟨q2, midR⟩
    · rw [hrev] at h; simp at h
    · rw [hrev] at h
      simp only [Bool.and_eq_true] at h
      obtain ⟨hq, ⟨hq2, hmidne⟩, hmidall⟩ := h
      have hrest : rest = midR.reverse ++ [q2] := by
        have := congrArg List.reverse hrev
        simpa using this
      have hq2w : isWordChar q2 = false := isQuote_not_word hq2
      have htw : (midR.reverse ++ (q2 :: cs)).takeWhile isWordChar = midR.reverse := by
        refine takeWhile_append_all isWordChar midR.reverse (q2 :: cs) hmidall ?_
        simp [hq2w]
      have hmidne' : midR.reverse ≠ [] := by
        simpa [List.isEmpty_eq_true] using hmidne
      show strRule (q :: (rest ++ cs)) = some (q :: rest, cs)
      rw [hrest]
      have hassoc : (midR.reverse ++ [q2]) ++ cs = midR.reverse ++ (q2 :: cs) := by
        simp
      rw [strRule, hassoc]
      simp only [hq, if_true, htw, List.isEmpty_eq_true]
      rw [if_neg hmidne', List.drop_left]
      simp [hq2]
end SampleParser

namespace SampleParser

/-- Tagging and first-match combinators on resolved heads. -/
theorem tag_none (ty : TokType) : tag ty none = none := rfl

/-- Tagging a successful match. -/
theorem tag_some (ty : TokType) (x : List Char × List Char) :
    tag ty (some x) = some (ty, x.1, x.2) := rfl

/-- First-match on a failed head. -/
theorem orElseT_none (b : Option (TokType × List Char × List Char)) : orElseT none b = b := rfl

/-- First-match on a successful head. -/
theorem orElseT_some (x : TokType × List Char × List Char)
    (b : Option (TokType × List Char × List Char)) : orElseT (some x) b = some x := rfl

/-- First-match on a failed rule. -/
theorem orElseO_none (b : MatchRes) : orElseO none b = b := rfl

/-- First-match on a successful rule. -/
theorem orElseO_some (x : List Char × List Char) (b : MatchRes) :
    orElseO (some x) b = some x := rfl

/-- Tag distributes over a conditional rule outcome. -/
theorem tag_ite (ty : TokType) (C : Prop) [Decidable C] (x : List Char × List Char) :
    tag ty (if C then some x else none) =
      if C then some (ty, x.1, x.2) else none := by
  split <;> rfl

/-- A symbol token at a separator is consumed exactly, with some kind. -/
theorem step_sym (w cs : List Char) (hmem : w ∈ symLits) (hcs : sepAt cs) :
    ∃ ty, tryRules false (w ++ cs) = some (ty, w, cs) := by
  rcases hcs with rfl | ⟨cs2, rfl⟩ <;>
    · simp only [symLits, List.mem_cons, List.not_mem_nil, or_false] at hmem
      rcases hmem with rfl | rfl | rfl | rfl | rfl | rfl | rfl | rfl | rfl | rfl | rfl | rfl |
        rfl | rfl | rfl | rfl | rfl | rfl | rfl <;> exact ⟨_, rfl⟩

/-- A two-word token at a separator is consumed exactly as one JOINS or
KEYWORD token. -/
theorem step_twoWord (w cs : List Char) (hmem : w ∈ twoWordLits) (hcs : sepAt cs) :
    ∃ ty, tryRules false (w ++ cs) = some (ty, w, cs) := by
  rcases hcs with rfl | ⟨cs2, rfl⟩ <;>
    · simp only [twoWordLits, List.mem_cons, List.not_mem_nil, or_false] at hmem
      rcases hmem with rfl | rfl | rfl | rfl | rfl <;> exact ⟨_, rfl⟩

/-- A merge pair at a separator is consumed as one two-word token spanning
the space. -/
theorem step_merge (w w2 cs : List Char) (hm : mergePair w w2 = true) (hcs : sepAt cs) :
    ∃ ty, tryRules false (w ++ ' ' :: (w2 ++ cs)) = some (ty, w ++ ' ' :: w2, cs) := by
  simp only [mergePair, Bool.or_eq_true, Bool.and_eq_true, decide_eq_true_eq] at hm
  rcases hcs with rfl | ⟨cs2, rfl⟩ <;>
    · rcases hm with ((((⟨rfl, rfl⟩ | ⟨rfl, rfl⟩) | ⟨rfl, rfl⟩) | ⟨rfl, rfl⟩) | ⟨rfl, rfl⟩) <;>
        exact ⟨_, rfl⟩

end SampleParser

namespace SampleParser

/-- A string-literal token is consumed exactly by the STRING rule (every
earlier rule's pattern cannot start at a quote). -/
theorem step_str (w cs : List Char) (h : strShaped w = true) :
    ∃ ty, tryRules false (w ++ cs) = some (ty, w, cs) := by
  cases w with
  | nil => cases h
  | cons q rest =>
    have hq : isQuote q = true := by
      have h2 := h
      simp only [strShaped] at h2
      rcases hrev : rest.reverse with _ | ⟨q2, midR⟩
      · rw [hrev] at h2; simp at h2
      · rw [hrev] at h2
        simp only [Bool.and_eq_true] at h2
        exact h2.1
    have hsr := strRule_shaped (q :: rest) cs h
    rcases (by simpa [isQuote] using hq : q = '\'' ∨ q = '"') with rfl | rfl
    · refine ⟨.STRING, ?_⟩
      show orElseT (tag .STRING (strRule (('\'' :: rest) ++ cs)))
        (tag .IDENTIFIER (wordRule (('\'' :: rest) ++ cs))) = _
      rw [hsr]
      rfl
    · refine ⟨.STRING, ?_⟩
      show orElseT (tag .STRING (strRule (('"' :: rest) ++ cs)))
        (tag .IDENTIFIER (wordRule (('"' :: rest) ++ cs))) = _
      rw [hsr]
      rfl

end SampleParser

namespace SampleParser

/-- A word-shaped token at a separator is consumed exactly, with some kind
(MEMBERSHIP/LOGICAL/OVER/JOINS/KEYWORD/NULL for the reserved words, NUMBER
for digit runs, IDENTIFIER otherwise), provided the two-word patterns
cannot extend it across the following separator. -/
theorem step_word (c : Char) (w' cs : List Char)
    (hall : (c :: w').all isWordChar = true)
    (hdig : (c :: w').all Char.isDigit = true ∨ c.isDigit = false)
    (hcs : sepAt cs)
    (hL : c :: w' = ['l', 'e', 'f', 't'] → contPart ['j', 'o', 'i', 'n'] true cs = none)
    (hR : c :: w' = ['r', 'i', 'g', 'h', 't'] → contPart ['j', 'o', 'i', 'n'] false cs = none)
    (hG : c :: w' = ['g', 'r', 'o', 'u', 'p'] → contPart ['b', 'y'] true cs = none)
    (hU : c :: w' = ['u', 'n', 'i', 'o', 'n'] → contPart ['a', 'l', 'l'] true cs = none)
    (hP : c :: w' = ['p', 'a', 'r', 't', 'i', 't', 'i', 'o', 'n'] →
      contPart ['b', 'y'] true cs = none) :
    ∃ ty, tryRules false ((c :: w') ++ cs) = some (ty, c :: w', cs) := by
  have hcw : isWordChar c = true := by
    simp only [List.all_cons, Bool.and_eq_true] at hall
    exact hall.1
  have hne : (c :: w') ≠ [] := by simp
  have s01 : litRule ['=', '>'] ((c :: w') ++ cs) = none :=
    litRule_word_head '=' ['>'] c (w' ++ cs) hcw (by decide)
  have s02 : litRule [':'] ((c :: w') ++ cs) = none :=
    litRule_word_head ':' [] c (w' ++ cs) hcw (by decide)
  have s03 : litsRule [['>'], ['>', '='], ['<'], ['<', '='], ['=', '='], ['!', '=']]
      ((c :: w') ++ cs) = none :=
    litsRule_word_head _ c (w' ++ cs) hcw (by decide)
  have s04 : litsRule [['*'], ['/']] ((c :: w') ++ cs) = none :=
    litsRule_word_head _ c (w' ++ cs) hcw (by decide)
  have s05 : litsRule [['+'], ['-']] ((c :: w') ++ cs) = none :=
    litsRule_word_head _ c (w' ++ cs) hcw (by decide)
  have s06 : litRule ['=', '='] ((c :: w') ++ cs) = none :=
    litRule_word_head '=' ['='] c (w' ++ cs) hcw (by decide)
  have s07 : litRule ['='] ((c :: w') ++ cs) = none :=
    litRule_word_head '=' [] c (w' ++ cs) hcw (by decide)
  have s08 : litRule ['.'] ((c :: w') ++ cs) = none :=
    litRule_word_head '.' [] c (w' ++ cs) hcw (by decide)
  have s09 : litRule [','] ((c :: w') ++ cs) = none :=
    litRule_word_head ',' [] c (w' ++ cs) hcw (by decide)
  have s10 : litRule ['['] ((c :: w') ++ cs) = none :=
    litRule_word_head '[' [] c (w' ++ cs) hcw (by decide)
  have s11 : litRule [']'] ((c :: w') ++ cs) = none :=
    litRule_word_head ']' [] c (w' ++ cs) hcw (by decide)
  have s12 : litRule ['('] ((c :: w') ++ cs) = none :=
    litRule_word_head '(' [] c (w' ++ cs) hcw (by decide)
  have s13 : litRule [')'] ((c :: w') ++ cs) = none :=
    litRule_word_head ')' [] c (w' ++ cs) hcw (by decide)
  have s14 : litRule ['\x7b'] ((c :: w') ++ cs) = none :=
    litRule_word_head '\x7b' [] c (w' ++ cs) hcw (by decide)
  have s15 : litRule ['\x7d'] ((c :: w') ++ cs) = none :=
    litRule_word_head '\x7d' [] c (w' ++ cs) hcw (by decide)
  have k01 : kwRule false ['i', 'n'] ((c :: w') ++ cs) =
      if c :: w' = ['i', 'n'] then some (['i', 'n'], cs) else none :=
    kwRule_on_word _ _ _ (by decide) hall hcs
  have k02 : kwRule false ['o', 'r'] ((c :: w') ++ cs) =
      if c :: w' = ['o', 'r'] then some (['o', 'r'], cs) else none :=
    kwRule_on_word _ _ _ (by decide) hall hcs
  have k03 : kwRule false ['a', 'n', 'd'] ((c :: w') ++ cs) =
      if c :: w' = ['a', 'n', 'd'] then some (['a', 'n', 'd'], cs) else none :=
    kwRule_on_word _ _ _ (by decide) hall hcs
  have k04 : kwRule false ['o', 'v', 'e', 'r'] ((c :: w') ++ cs) =
      if c :: w' = ['o', 'v', 'e', 'r'] then some (['o', 'v', 'e', 'r'], cs) else none :=
    kwRule_on_word _ _ _ (by decide) hall hcs
  have k05 : kwRule false ['j', 'o', 'i', 'n'] ((c :: w') ++ cs) =
      if c :: w' = ['j', 'o', 'i', 'n'] then some (['j', 'o', 'i', 'n'], cs) else none :=
    kwRule_on_word _ _ _ (by decide) hall hcs
  have k06 : kwRule false ['u', 'n', 'i', 'o', 'n'] ((c :: w') ++ cs) =
      if c :: w' = ['u', 'n', 'i', 'o', 'n'] then some (['u', 'n', 'i', 'o', 'n'], cs)
      else none :=
    kwRule_on_word _ _ _ (by decide) hall hcs
  have k07 : kwRule false ['l', 'e', 't'] ((c :: w') ++ cs) =
      if c :: w' = ['l', 'e', 't'] then some (['l', 'e', 't'], cs) else none :=
    kwRule_on_word _ _ _ (by decide) hall hcs
  have k08 : kwRule false ['d', 'i', 's', 't', 'i', 'n', 'c', 't'] ((c :: w') ++ cs) =
      if c :: w' = ['d', 'i', 's', 't', 'i', 'n', 'c', 't'] then
        some (['d', 'i', 's', 't', 'i', 'n', 'c', 't'], cs) else none :=
    kwRule_on_word _ _ _ (by decide) hall hcs
  have k09 : kwRule false ['w', 'h', 'e', 'r', 'e'] ((c :: w') ++ cs) =
      if c :: w' = ['w', 'h', 'e', 'r', 'e'] then some (['w', 'h', 'e', 'r', 'e'], cs)
      else none :=
    kwRule_on_word _ _ _ (by decide) hall hcs
  have k10 : kwRule false ['h', 'a', 'v', 'i', 'n', 'g'] ((c :: w') ++ cs) =
      if c :: w' = ['h', 'a', 'v', 'i', 'n', 'g'] then
        some (['h', 'a', 'v', 'i', 'n', 'g'], cs) else none :=
    kwRule_on_word _ _ _ (by decide) hall hcs
  have k11 : kwRule false ['a', 's'] ((c :: w') ++ cs) =
      if c :: w' = ['a', 's'] then some (['a', 's'], cs) else none :=
    kwRule_on_word _ _ _ (by decide) hall hcs
  have k12 : kwRule false ['p', 'r', 'o', 'j', 'e', 'c', 't'] ((c :: w') ++ cs) =
      if c :: w' = ['p', 'r', 'o', 'j', 'e', 'c', 't'] then
        some (['p', 'r', 'o', 'j', 'e', 'c', 't'], cs) else none :=
    kwRule_on_word _ _ _ (by decide) hall hcs
  have k13 : kwRule false ['c', 'o', 'u', 'n', 't'] ((c :: w') ++ cs) =
      if c :: w' = ['c', 'o', 'u', 'n', 't'] then some (['c', 'o', 'u', 'n', 't'], cs)
      else none :=
    kwRule_on_word _ _ _ (by decide) hall hcs
  have k14 : kwRule false ['f', 'i', 'r', 's', 't'] ((c :: w') ++ cs) =
      if c :: w' = ['f', 'i', 'r', 's', 't'] then some (['f', 'i', 'r', 's', 't'], cs)
      else none :=
    kwRule_on_word _ _ _ (by decide) hall hcs
  have k15 : kwRule false ['m', 'a', 't', 'c', 'h'] ((c :: w') ++ cs) =
      if c :: w' = ['m', 'a', 't', 'c', 'h'] then some (['m', 'a', 't', 'c', 'h'], cs)
      else none :=
    kwRule_on_word _ _ _ (by decide) hall hcs
  have k16 : kwRule false ['c', 'a', 's', 'e'] ((c :: w') ++ cs) =
      if c :: w' = ['c', 'a', 's', 'e'] then some (['c', 'a', 's', 'e'], cs) else none :=
    kwRule_on_word _ _ _ (by decide) hall hcs
  have k17 : kwRule false ['o', 'n'] ((c :: w') ++ cs) =
      if c :: w' = ['o', 'n'] then some (['o', 'n'], cs) else none :=
    kwRule_on_word _ _ _ (by decide) hall hcs
  have k18 : kwRule false ['s', 'u', 'm'] ((c :: w') ++ cs) =
      if c :: w' = ['s', 'u', 'm'] then some (['s', 'u', 'm'], cs) else none :=
    kwRule_on_word _ _ _ (by decide) hall hcs
  have k19 : kwRule false ['n', 'u', 'l', 'l'] ((c :: w') ++ cs) =
      if c :: w' = ['n', 'u', 'l', 'l'] then some (['n', 'u', 'l', 'l'], cs) else none :=
    kwRule_on_word _ _ _ (by decide) hall hcs
  have j01 : kw2Rule false ['l', 'e', 'f', 't'] ['j', 'o', 'i', 'n'] true ((c :: w') ++ cs) =
      if c :: w' = ['l', 'e', 'f', 't'] then
        (contPart ['j', 'o', 'i', 'n'] true cs).map
          (fun r2 => (['l', 'e', 'f', 't'] ++ ' ' :: ['j', 'o', 'i', 'n'], r2))
      else none :=
    kw2Rule_on_word _ _ _ _ _ (by decide) hall hcs
  have j02 : kw2Rule false ['r', 'i', 'g', 'h', 't'] ['j', 'o', 'i', 'n'] false
      ((c :: w') ++ cs) =
      if c :: w' = ['r', 'i', 'g', 'h', 't'] then
        (contPart ['j', 'o', 'i', 'n'] false cs).map
          (fun r2 => (['r', 'i', 'g', 'h', 't'] ++ ' ' :: ['j', 'o', 'i', 'n'], r2))
      else none :=
    kw2Rule_on_word _ _ _ _ _ (by decide) hall hcs
  have j03 : kw2Rule false ['g', 'r', 'o', 'u', 'p'] ['b', 'y'] true ((c :: w') ++ cs) =
      if c :: w' = ['g', 'r', 'o', 'u', 'p'] then
        (contPart ['b', 'y'] true cs).map
          (fun r2 => (['g', 'r', 'o', 'u', 'p'] ++ ' ' :: ['b', 'y'], r2))
      else none :=
    kw2Rule_on_word _ _ _ _ _ (by decide) hall hcs
  have j04 : kw2Rule false ['u', 'n', 'i', 'o', 'n'] ['a', 'l', 'l'] true ((c :: w') ++ cs) =
      if c :: w' = ['u', 'n', 'i', 'o', 'n'] then
        (contPart ['a', 'l', 'l'] true cs).map
          (fun r2 => (['u', 'n', 'i', 'o', 'n'] ++ ' ' :: ['a', 'l', 'l'], r2))
      else none :=
    kw2Rule_on_word _ _ _ _ _ (by decide) hall hcs
  have j05 : kw2Rule false ['p', 'a', 'r', 't', 'i', 't', 'i', 'o', 'n'] ['b', 'y'] true
      ((c :: w') ++ cs) =
      if c :: w' = ['p', 'a', 'r', 't', 'i', 't', 'i', 'o', 'n'] then
        (contPart ['b', 'y'] true cs).map
          (fun r2 => (['p', 'a', 'r', 't', 'i', 't', 'i', 'o', 'n'] ++ ' ' :: ['b', 'y'], r2))
      else none :=
    kw2Rule_on_word _ _ _ _ _ (by decide) hall hcs
  have sstr : strRule ((c :: w') ++ cs) = none := strRule_word_head c w' cs hcw
  have sword : wordRule ((c :: w') ++ cs) = some (c :: w', cs) :=
    wordRule_word (c :: w') cs hall hne hcs
  simp only [tryRules, joinsRule, keywordRule]
  rw [s01, s02, s03, s04, s05, s06, s07, s08, s09, s10, s11, s12, s13, s14, s15,
    k01, k02, k03, k04, k05, k06, k07, k08, k09, k10, k11, k12, k13, k14, k15, k16,
    k17, k18, k19, j01, j02, j03, j04, j05, sstr, sword]
  simp only [tag_none, orElseT_none, tag_ite]
  by_cases h01 : c :: w' = ['i', 'n']
  · rw [if_pos h01, orElseT_some]; exact ⟨_, by rw [h01]⟩
  rw [if_neg h01, orElseT_none]
  by_cases h02 : c :: w' = ['o', 'r']
  · rw [if_pos h02, orElseT_some]; exact ⟨_, by rw [h02]⟩
  rw [if_neg h02, orElseT_none]
  by_cases h03 : c :: w' = ['a', 'n', 'd']
  · rw [if_pos h03, orElseT_some]; exact ⟨_, by rw [h03]⟩
  rw [if_neg h03, orElseT_none]
  by_cases h04 : c :: w' = ['o', 'v', 'e', 'r']
  · rw [if_pos h04, orElseT_some]; exact ⟨_, by rw [h04]⟩
  rw [if_neg h04, orElseT_none]
  -- the JOINS alternation
  by_cases h05 : c :: w' = ['l', 'e', 'f', 't']
  · rw [hL h05, h05]
    exact ⟨_, rfl⟩
  rw [if_neg h05, orElseO_none]
  by_cases h06 : c :: w' = ['r', 'i', 'g', 'h', 't']
  · rw [hR h06, h06]
    exact ⟨_, rfl⟩
  rw [if_neg h06, orElseO_none]
  by_cases h07 : c :: w' = ['j', 'o', 'i', 'n']
  · rw [if_pos h07, orElseO_some, tag_some, orElseT_some]; exact ⟨_, by rw [h07]⟩
  rw [if_neg h07, orElseO_none]
  by_cases h08 : c :: w' = ['u', 'n', 'i', 'o', 'n']
  · rw [hU h08, h08]
    exact ⟨_, rfl⟩
  rw [if_neg h08, orElseO_none, if_neg h08, tag_none, orElseT_none]
  -- the KEYWORD alternation
  by_cases h09 : c :: w' = ['l', 'e', 't']
  · rw [if_pos h09, orElseO_some, tag_some, orElseT_some]; exact ⟨_, by rw [h09]⟩
  rw [if_neg h09, orElseO_none]
  by_cases h10 : c :: w' = ['d', 'i', 's', 't', 'i', 'n', 'c', 't']
  · rw [if_pos h10, orElseO_some, tag_some, orElseT_some]; exact ⟨_, by rw [h10]⟩
  rw [if_neg h10, orElseO_none]
  by_cases h11 : c :: w' = ['w', 'h', 'e', 'r', 'e']
  · rw [if_pos h11, orElseO_some, tag_some, orElseT_some]; exact ⟨_, by rw [h11]⟩
  rw [if_neg h11, orElseO_none]
  by_cases h12 : c :: w' = ['g', 'r', 'o', 'u', 'p']
  · rw [hG h12, h12]
    exact ⟨_, rfl⟩
  rw [if_neg h12, orElseO_none]
  by_cases h13 : c :: w' = ['h', 'a', 'v', 'i', 'n', 'g']
  · rw [if_pos h13, orElseO_some, tag_some, orElseT_some]; exact ⟨_, by rw [h13]⟩
  rw [if_neg h13, orElseO_none]
  by_cases h14 : c :: w' = ['a', 's']
  · rw [if_pos h14, orElseO_some, tag_some, orElseT_some]; exact ⟨_, by rw [h14]⟩
  rw [if_neg h14, orElseO_none]
  by_cases h15 : c :: w' = ['p', 'r', 'o', 'j', 'e', 'c', 't']
  · rw [if_pos h15, orElseO_some, tag_some, orElseT_some]; exact ⟨_, by rw [h15]⟩
  rw [if_neg h15, orElseO_none]
  by_cases h16 : c :: w' = ['c', 'o', 'u', 'n', 't']
  · rw [if_pos h16, orElseO_some, tag_some, orElseT_some]; exact ⟨_, by rw [h16]⟩
  rw [if_neg h16, orElseO_none]
  by_cases h17 : c :: w' = ['f', 'i', 'r', 's', 't']
  · rw [if_pos h17, orElseO_some, tag_some, orElseT_some]; exact ⟨_, by rw [h17]⟩
  rw [if_neg h17, orElseO_none]
  by_cases h18 : c :: w' = ['m', 'a', 't', 'c', 'h']
  · rw [if_pos h18, orElseO_some, tag_some, orElseT_some]; exact ⟨_, by rw [h18]⟩
  rw [if_neg h18, orElseO_none]
  by_cases h19 : c :: w' = ['c', 'a', 's', 'e']
  · rw [if_pos h19, orElseO_some, tag_some, orElseT_some]; exact ⟨_, by rw [h19]⟩
  rw [if_neg h19, orElseO_none]
  by_cases h20 : c :: w' = ['o', 'n']
  · rw [if_pos h20, orElseO_some, tag_some, orElseT_some]; exact ⟨_, by rw [h20]⟩
  rw [if_neg h20, orElseO_none]
  by_cases h21 : c :: w' = ['s', 'u', 'm']
  · rw [if_pos h21, orElseO_some, tag_some, orElseT_some]; exact ⟨_, by rw [h21]⟩
  rw [if_neg h21, orElseO_none]
  by_cases h22 : c :: w' = ['p', 'a', 'r', 't', 'i', 't', 'i', 'o', 'n']
  · rw [hP h22, h22]
    exact ⟨_, rfl⟩
  rw [if_neg h22, tag_none, orElseT_none]
  by_cases h23 : c :: w' = ['n', 'u', 'l', 'l']
  · rw [if_pos h23, orElseT_some]; exact ⟨_, by rw [h23]⟩
  rw [if_neg h23, orElseT_none]
  rcases hdig with hd | hd
  · have snum : numRule ((c :: w') ++ cs) = some (c :: w', cs) :=
      numRule_digits (c :: w') cs hd hne hcs
    rw [snum, tag_some, orElseT_some]
    exact ⟨_, rfl⟩
  · have snum : numRule ((c :: w') ++ cs) = none := numRule_nondigit c w' cs hd
    rw [snum, tag_none, orElseT_none, tag_some]
    exact ⟨_, rfl⟩

end SampleParser
namespace SampleParser

/-- A word character is never a quote head mismatch helper: distinct
characters at the heads make a literal match fail. -/
theorem matchLit_head_neq (x : Char) (xs : List Char) (y : Char) (ys : List Char)
    (h : ¬ (y = x)) : matchLit (x :: xs) (y :: ys) = none := by
  simp [matchLit, h]

/-- A word-character head differs from a non-word-character head. -/
theorem ne_word_head {a : Char} (ha : isWordChar a = true) {b : Char}
    (hb : isWordChar b = false) : ¬ (b = a) := by
  intro h
  rw [h, ha] at hb
  cases hb

/-- A list is a Boolean prefix of itself extended. -/
theorem isPrefixOf_append_self (a b : List Char) : a.isPrefixOf (a ++ b) = true :=
  List.isPrefixOf_iff_prefix.mpr (List.prefix_append a b)

/-- A nonempty good word. -/
theorem goodWord_ne_nil (w : List Char) (h : goodWordB w = true) : w ≠ [] := by
  intro hw
  subst hw
  exact absurd h (by decide)

/-- The space-then-next-token continuation defeats a two-word pattern's
second half, provided the next token is a good word other than the
continuation word and (for the boundary-free `right join` pattern) not a
proper extension of it. -/
theorem contPart_sep_none (cc : Char) (crest : List Char) (nb : Bool)
    (w2 tail : List Char)
    (hccw : isWordChar cc = true)
    (hcw : (cc :: crest).all isWordChar = true)
    (h2w : ∀ u ∈ twoWordLits, matchLit (cc :: crest) (u ++ tail) = none)
    (hw2 : goodWordB w2 = true) (hne : w2 ≠ cc :: crest)
    (hpre : nb = false → (cc :: crest).isPrefixOf w2 = false)
    (htail : sepAt tail) :
    contPart (cc :: crest) nb (' ' :: (w2 ++ tail)) = none := by
  show (match matchLit (cc :: crest) (w2 ++ tail) with
    | some r => if nb && !wordBreakAt r then none else some r
    | none => none) = none
  simp only [goodWordB, Bool.or_eq_true, decide_eq_true_eq] at hw2
  rcases hw2 with ((hsym | h2) | hword) | hstr
  · have hml : matchLit (cc :: crest) (w2 ++ tail) = none := by
      simp only [symLits, List.mem_cons, List.not_mem_nil, or_false] at hsym
      rcases hsym with rfl | rfl | rfl | rfl | rfl | rfl | rfl | rfl | rfl | rfl | rfl | rfl |
        rfl | rfl | rfl | rfl | rfl | rfl | rfl <;>
        exact matchLit_head_neq _ _ _ _ (ne_word_head hccw (by decide))
    rw [hml]
  · rw [h2w w2 h2]
  · have hallw2 : w2.all isWordChar = true := by
      simp only [wordShaped, Bool.and_eq_true] at hword
      exact hword.1.2
    rcases matchLit_word_tri (cc :: crest) w2 tail hcw hallw2 htail with
      ⟨heq, hml⟩ | ⟨d, ds, hw2eq, hd, hml⟩ | hml
    · exact absurd heq.symm hne
    · rw [hml]
      have hbw : wordBreakAt (d :: (ds ++ tail)) = false := by
        simp [wordBreakAt, hd]
      cases nb with
      | true =>
        show (if true && !wordBreakAt (d :: (ds ++ tail)) then none
          else some (d :: (ds ++ tail))) = none
        rw [hbw]
        rfl
      | false =>
        exfalso
        have h1 := isPrefixOf_append_self (cc :: crest) (d :: ds)
        rw [← hw2eq] at h1
        rw [hpre rfl] at h1
        cases h1
    · rw [hml]
  · cases w2 with
    | nil => cases hstr
    | cons q rest =>
      have hq : isQuote q = true := by
        simp only [strShaped] at hstr
        rcases hrev : rest.reverse with _ | ⟨q2, midR⟩
        · rw [hrev] at hstr; simp at hstr
        · rw [hrev] at hstr
          simp only [Bool.and_eq_true] at hstr
          exact hstr.1
      have hml : matchLit (cc :: crest) ((q :: rest) ++ tail) = none :=
        matchLit_head_neq _ _ _ _ (ne_word_head hccw (isQuote_not_word hq))
      rw [hml]

end SampleParser

namespace SampleParser

/-- Any good word at a separator is consumed exactly as one token, given
that the two-word continuations fail on what follows. -/
theorem step_good (w cs : List Char) (hgw : goodWordB w = true) (hcs : sepAt cs)
    (hL : w = ['l', 'e', 'f', 't'] → contPart ['j', 'o', 'i', 'n'] true cs = none)
    (hR : w = ['r', 'i', 'g', 'h', 't'] → contPart ['j', 'o', 'i', 'n'] false cs = none)
    (hG : w = ['g', 'r', 'o', 'u', 'p'] → contPart ['b', 'y'] true cs = none)
    (hU : w = ['u', 'n', 'i', 'o', 'n'] → contPart ['a', 'l', 'l'] true cs = none)
    (hP : w = ['p', 'a', 'r', 't', 'i', 't', 'i', 'o', 'n'] →
      contPart ['b', 'y'] true cs = none) :
    ∃ ty, tryRules false (w ++ cs) = some (ty, w, cs) := by
  simp only [goodWordB, Bool.or_eq_true, decide_eq_true_eq] at hgw
  rcases hgw with ((hsym | h2w) | hword) | hstr
  · exact step_sym w cs hsym hcs
  · exact step_twoWord w cs h2w hcs
  · cases w with
    | nil => simp [wordShaped] at hword
    | cons c w' =>
      have hall : (c :: w').all isWordChar = true := by
        simp only [wordShaped, Bool.and_eq_true] at hword
        exact hword.1.2
      have hdig : (c :: w').all Char.isDigit = true ∨ c.isDigit = false := by
        simp only [wordShaped, Bool.and_eq_true, Bool.or_eq_true] at hword
        rcases hword.2 with h | h
        · exact Or.inl h
        · have h' : (!c.isDigit) = true := h
          exact Or.inr (by simpa using h')
      exact step_word c w' cs hall hdig hcs hL hR hG hU hP
  · exact step_str w cs hstr

/-- The scanning loop consumes a matched token and recurses. -/
theorem lexCF_step (f : Nat) (p : Bool) (cs : List Char) (ty : TokType)
    (text r : List Char) (hne : cs ≠ []) (h : tryRules p cs = some (ty, text, r)) :
    lexCF (f + 1) p cs = ⟨ty, ⟨text⟩⟩ :: lexCF f (prevOf text) r := by
  cases cs with
  | nil => exact absurd rfl hne
  | cons c rest =>
    show (match tryRules p (c :: rest) with
      | some (ty, text, r) => ⟨ty, ⟨text⟩⟩ :: lexCF f (prevOf text) r
      | none => lexCF f (isWordChar c) rest) =
        ⟨ty, ⟨text⟩⟩ :: lexCF f (prevOf text) r
    rw [h]

/-- Joining onto a nonempty rest inserts one space. -/
theorem joinC_cons_ne (x : List Char) (ys : List (List Char)) (h : ys ≠ []) :
    joinC (x :: ys) = x ++ ' ' :: joinC ys := by
  cases ys with
  | nil => exact absurd rfl h
  | cons y ys' => rfl

/-- The chained pair condition yields its head pair. -/
theorem pairChain_headPair (w w2 : List Char) (r2 : List (List Char))
    (h : pairChain (w :: w2 :: r2) = true) : pairOKB w w2 = true := by
  have h' : (pairOKB w w2 && pairChain (w2 :: r2)) = true := h
  simp only [Bool.and_eq_true] at h'
  exact h'.1

/-- The chained pair condition restricts to the tail. -/
theorem pairChain_tail (w : List Char) (rest : List (List Char))
    (h : pairChain (w :: rest) = true) : pairChain rest = true := by
  cases rest with
  | nil => rfl
  | cons w2 r2 =>
    have h' : (pairOKB w w2 && pairChain (w2 :: r2)) = true := h
    simp only [Bool.and_eq_true] at h'
    exact h'.2

/-- Decomposing the word-sequence condition at a head. -/
theorem wordsOKC_head (w : List Char) (rest : List (List Char))
    (h : wordsOKC (w :: rest) = true) :
    goodWordB w = true ∧ wordsOKC rest = true ∧ pairChain (w :: rest) = true := by
  simp only [wordsOKC, List.all_cons, Bool.and_eq_true] at h
  refine ⟨h.1.1, ?_, h.2⟩
  simp only [wordsOKC, Bool.and_eq_true]
  exact ⟨h.1.2, pairChain_tail w rest h.2⟩

end SampleParser

namespace SampleParser

/-- The core roundtrip induction: on a space-joined sequence of good words
with the `right`/`join`-extension adjacency excluded, the scanner's token
texts re-join to exactly the input, and the token list is nonempty when the
word list is. -/
theorem lexCF_wordsOK :
    ∀ (N : Nat) (l : List (List Char)), l.length ≤ N → wordsOKC l = true →
      ∀ fuel, (joinC l).length ≤ fuel →
        joinC ((lexCF fuel false (joinC l)).map (fun t => t.value.data)) = joinC l ∧
        (l ≠ [] → lexCF fuel false (joinC l) ≠ []) := by
  intro N
  induction N with
  | zero =>
    intro l hlen _ fuel _
    have hl : l = [] := List.length_eq_zero.mp (Nat.le_zero.mp hlen)
    subst hl
    exact ⟨by rw [show joinC ([] : List (List Char)) = [] from rfl, lexCF_nil]; rfl,
      fun h => absurd rfl h⟩
  | succ N ih =>
    intro l hlen hok fuel hfuel
    cases l with
    | nil =>
      exact ⟨by rw [show joinC ([] : List (List Char)) = [] from rfl, lexCF_nil]; rfl,
        fun h => absurd rfl h⟩
    | cons w rest =>
      obtain ⟨hgw, hokrest, hpc⟩ := wordsOKC_head w rest hok
      have hwne : w ≠ [] := goodWord_ne_nil w hgw
      have hw1 : 0 < w.length := List.length_pos.mpr hwne
      cases rest with
      | nil =>
        obtain ⟨ty, hstep⟩ := step_good w [] hgw (Or.inl rfl) (fun _ => rfl) (fun _ => rfl)
          (fun _ => rfl) (fun _ => rfl) (fun _ => rfl)
        rw [List.append_nil] at hstep
        rw [show joinC [w] = w from rfl] at hfuel ⊢
        obtain ⟨f, rfl⟩ : ∃ f, fuel = f + 1 := by
          cases fuel with
          | zero => exact absurd (Nat.le_zero.mp hfuel) (by omega)
          | succ f => exact ⟨f, rfl⟩
        rw [lexCF_step f false w ty w [] hwne hstep, lexCF_nil]
        exact ⟨rfl, fun _ => List.cons_ne_nil _ _⟩
      | cons w2 rest2 =>
        obtain ⟨hgw2, hokrest2, hpc2⟩ := wordsOKC_head w2 rest2 hokrest
        have hw2ne : w2 ≠ [] := goodWord_ne_nil w2 hgw2
        have hw21 : 0 < w2.length := List.length_pos.mpr hw2ne
        obtain ⟨cs2, hcs2, hsep2, hrec⟩ :
            ∃ cs2, joinC (w2 :: rest2) = w2 ++ cs2 ∧ sepAt cs2 ∧
              (rest2 = [] ∧ cs2 = [] ∨
                ∃ w3 r3, rest2 = w3 :: r3 ∧ cs2 = ' ' :: joinC (w3 :: r3)) := by
          cases rest2 with
          | nil => exact ⟨[], (List.append_nil w2).symm, Or.inl rfl, Or.inl ⟨rfl, rfl⟩⟩
          | cons w3 r3 =>
            exact ⟨' ' :: joinC (w3 :: r3), rfl, Or.inr ⟨_, rfl⟩, Or.inr ⟨w3, r3, rfl, rfl⟩⟩
        have hJ : joinC (w :: w2 :: rest2) = w ++ ' ' :: (w2 ++ cs2) := by
          show w ++ ' ' :: joinC (w2 :: rest2) = _
          rw [hcs2]
        rw [hJ] at hfuel ⊢
        rw [List.length_append] at hfuel
        simp only [List.length_cons, List.length_append] at hfuel
        by_cases hm : mergePair w w2 = true
        · obtain ⟨ty, hstep⟩ := step_merge w w2 cs2 hm hsep2
          obtain ⟨f', rfl⟩ : ∃ f', fuel = f' + 2 := by
            cases fuel with
            | zero => omega
            | succ f =>
              cases f with
              | zero => omega
              | succ f' => exact ⟨f', rfl⟩
          rw [lexCF_step (f' + 1) false (w ++ ' ' :: (w2 ++ cs2)) ty (w ++ ' ' :: w2) cs2
            (by intro hc; exact hwne (List.append_eq_nil.mp hc).1) hstep]
          rcases hrec with ⟨rfl, rfl⟩ | ⟨w3, r3, rfl, rfl⟩
          · refine ⟨?_, fun _ => List.cons_ne_nil _ _⟩
            rw [lexCF_nil]
            show w ++ ' ' :: w2 = w ++ ' ' :: (w2 ++ [])
            rw [List.append_nil]
          · simp only [List.length_cons] at hfuel
            rw [lexCF_space f' (prevOf (w ++ ' ' :: w2)) (joinC (w3 :: r3))]
            have hlen3 : (w3 :: r3).length ≤ N := by
              simp only [List.length_cons] at hlen ⊢
              omega
            have hfl3 : (joinC (w3 :: r3)).length ≤ f' := by omega
            obtain ⟨hjoin, hne3⟩ := ih (w3 :: r3) hlen3 hokrest2 f' hfl3
            have hTS : lexCF f' false (joinC (w3 :: r3)) ≠ [] := hne3 (List.cons_ne_nil _ _)
            refine ⟨?_, fun _ => List.cons_ne_nil _ _⟩
            show joinC ((w ++ ' ' :: w2) ::
                (lexCF f' false (joinC (w3 :: r3))).map (fun t => t.value.data)) =
              w ++ ' ' :: (w2 ++ ' ' :: joinC (w3 :: r3))
            rw [joinC_cons_ne _ _ (fun h => hTS (List.map_eq_nil_iff.mp h)), hjoin]
            simp [List.append_assoc]
        · have hL : w = ['l', 'e', 'f', 't'] →
              contPart ['j', 'o', 'i', 'n'] true (' ' :: (w2 ++ cs2)) = none := by
            intro hwEq
            have hne2 : w2 ≠ ['j', 'o', 'i', 'n'] :=
              fun heq => hm (by rw [hwEq, heq]; decide)
            exact contPart_sep_none 'j' ['o', 'i', 'n'] true w2 cs2 (by decide) (by decide)
              (fun u hu => by
                simp only [twoWordLits, List.mem_cons, List.not_mem_nil, or_false] at hu
                rcases hu with rfl | rfl | rfl | rfl | rfl <;> rfl)
              hgw2 hne2 (fun h => absurd h (by decide)) hsep2
          have hR : w = ['r', 'i', 'g', 'h', 't'] →
              contPart ['j', 'o', 'i', 'n'] false (' ' :: (w2 ++ cs2)) = none := by
            intro hwEq
            have hne2 : w2 ≠ ['j', 'o', 'i', 'n'] :=
              fun heq => hm (by rw [hwEq, heq]; decide)
            have hpok : pairOKB w w2 = true := pairChain_headPair w w2 rest2 hpc
            rw [hwEq] at hpok
            have hpre : (['j', 'o', 'i', 'n'].isPrefixOf w2) = false := by
              cases hjp : ['j', 'o', 'i', 'n'].isPrefixOf w2 with
              | false => rfl
              | true =>
                exfalso
                have hfalse : pairOKB ['r', 'i', 'g', 'h', 't'] w2 = false := by
                  simp [pairOKB, hjp, hne2]
                rw [hfalse] at hpok
                cases hpok
            exact contPart_sep_none 'j' ['o', 'i', 'n'] false w2 cs2 (by decide) (by decide)
              (fun u hu => by
                simp only [twoWordLits, List.mem_cons, List.not_mem_nil, or_false] at hu
                rcases hu with rfl | rfl | rfl | rfl | rfl <;> rfl)
              hgw2 hne2 (fun _ => hpre) hsep2
          have hG : w = ['g', 'r', 'o', 'u', 'p'] →
              contPart ['b', 'y'] true (' ' :: (w2 ++ cs2)) = none := by
            intro hwEq
            have hne2 : w2 ≠ ['b', 'y'] := fun heq => hm (by rw [hwEq, heq]; decide)
            exact contPart_sep_none 'b' ['y'] true w2 cs2 (by decide) (by decide)
              (fun u hu => by
                simp only [twoWordLits, List.mem_cons, List.not_mem_nil, or_false] at hu
                rcases hu with rfl | rfl | rfl | rfl | rfl <;> rfl)
              hgw2 hne2 (fun h => absurd h (by decide)) hsep2
          have hU : w = ['u', 'n', 'i', 'o', 'n'] →
              contPart ['a', 'l', 'l'] true (' ' :: (w2 ++ cs2)) = none := by
            intro hwEq
            have hne2 : w2 ≠ ['a', 'l', 'l'] := fun heq => hm (by rw [hwEq, heq]; decide)
            exact contPart_sep_none 'a' ['l', 'l'] true w2 cs2 (by decide) (by decide)
              (fun u hu => by
                simp only [twoWordLits, List.mem_cons, List.not_mem_nil, or_false] at hu
                rcases hu with rfl | rfl | rfl | rfl | rfl <;> rfl)
              hgw2 hne2 (fun h => absurd h (by decide)) hsep2
          have hP : w = ['p', 'a', 'r', 't', 'i', 't', 'i', 'o', 'n'] →
              contPart ['b', 'y'] true (' ' :: (w2 ++ cs2)) = none := by
            intro hwEq
            have hne2 : w2 ≠ ['b', 'y'] := fun heq => hm (by rw [hwEq, heq]; decide)
            exact contPart_sep_none 'b' ['y'] true w2 cs2 (by decide) (by decide)
              (fun u hu => by
                simp only [twoWordLits, List.mem_cons, List.not_mem_nil, or_false] at hu
                rcases hu with rfl | rfl | rfl | rfl | rfl <;> rfl)
              hgw2 hne2 (fun h => absurd h (by decide)) hsep2
          obtain ⟨ty, hstep⟩ :=
            step_good w (' ' :: (w2 ++ cs2)) hgw (Or.inr ⟨_, rfl⟩) hL hR hG hU hP
          obtain ⟨f', rfl⟩ : ∃ f', fuel = f' + 2 := by
            cases fuel with
            | zero => omega
            | succ f =>
              cases f with
              | zero => omega
              | succ f' => exact ⟨f', rfl⟩
          rw [lexCF_step (f' + 1) false (w ++ ' ' :: (w2 ++ cs2)) ty w
            (' ' :: (w2 ++ cs2)) (by intro hc; exact hwne (List.append_eq_nil.mp hc).1) hstep]
          rw [lexCF_space f' (prevOf w) (w2 ++ cs2)]
          have hlen2 : (w2 :: rest2).length ≤ N := by
            simp only [List.length_cons] at hlen ⊢
            omega
          have hfl2 : (joinC (w2 :: rest2)).length ≤ f' := by
            rw [hcs2, List.length_append]
            omega
          obtain ⟨hjoin, hne2⟩ := ih (w2 :: rest2) hlen2 hokrest f' hfl2
          rw [hcs2] at hjoin
          have hTS : lexCF f' false (w2 ++ cs2) ≠ [] := by
            have h0 := hne2 (List.cons_ne_nil _ _)
            rw [hcs2] at h0
            exact h0
          refine ⟨?_, fun _ => List.cons_ne_nil _ _⟩
          show joinC (w :: (lexCF f' false (w2 ++ cs2)).map (fun t => t.value.data)) =
            w ++ ' ' :: (w2 ++ cs2)
          rw [joinC_cons_ne _ _ (fun h => hTS (List.map_eq_nil_iff.mp h)), hjoin]

end SampleParser
namespace SampleParser

/-- C3 counterexample: the claim includes `>=` among the roundtripping
token surfaces, but the ordered alternation `>|>=|<|<=|==|!=` lets `>`
win first, so the tokenizer splits `>=` into `>` and `=` and the
re-joined token texts are `> =`, not `>=`. -/
theorem c3_counterexample_ge_splits :
    joinTokens ">=" = "> =" ∧ ("> =" : String) ≠ ">=" := by
  refine ⟨rfl, ?_⟩
  decide

/-- C3 (amended): for an input built by joining grammar-recognized surface
tokens with single spaces — excluding `>=` and `<=` (which split into two
tokens), excluding digit-led mixed words such as `1a` (which the NUMBER
rule splits), and excluding a `right` token followed by a proper extension
of `join` (the boundary-free `\bright join` pattern would consume across
the gap) — re-joining the texts of the tokens the tokenizer produces, in
order, with single spaces reproduces the input exactly. -/
theorem c3_tokenize_roundtrip (ws : List String)
    (h : wordsOKC (ws.map String.data) = true) :
    joinTokens (joinWords ws) = joinWords ws := by
  have h2 := (lexCF_wordsOK (ws.map String.data).length (ws.map String.data) le_rfl h
    (joinC (ws.map String.data)).length le_rfl).1
  show (⟨joinC ((lexCF (joinC (ws.map String.data)).length false
      (joinC (ws.map String.data))).map (fun t => t.value.data))⟩ : String) =
    ⟨joinC (ws.map String.data)⟩
  rw [h2]

/-- C3 witness: the amended roundtrip on a concrete token sequence that
exercises keywords, a two-word join, operators, a number, a string and
identifiers. -/
theorem c3_witness :
    wordsOKC ((["let", "x", "=", "a", "right", "join", "b", "on", "c", ">",
      "1", "and", "d", "!=", "'q'"]).map String.data) = true ∧
    joinTokens (joinWords ["let", "x", "=", "a", "right", "join", "b", "on", "c", ">",
      "1", "and", "d", "!=", "'q'"]) =
      joinWords ["let", "x", "=", "a", "right", "join", "b", "on", "c", ">",
      "1", "and", "d", "!=", "'q'"] :=
  ⟨by decide, c3_tokenize_roundtrip _ (by decide)⟩

end SampleParser
